import Mathlib

/-!
Shallow embedding of `src/parsematic/__init__.py`, a small math-expression
parser whose entry point is `MathParser.parse`.  The embedding follows the
Python source line by line:

* raw lexing is `re.findall` over the pattern
  `\d+\.\d+|\d+|\/\/|\*\*|\+|\-|\*|\/|\w+|\(|\)` (ASCII classes; every input
  in the claims is ASCII);
* the unary-minus merge, the constant substitution and the `MathNum` mapping
  are the loop and comprehension in `MathParser.tokenize` (lines 267-292);
* parenthesis elimination is the `while "(" in updated_tokens` loop
  (lines 294-324) with `find_parentheses` (lines 351-384);
* the final operator fold is the bounded `while` loop (lines 327-345);
* evaluation is `MathObj.calc` and its overrides.

Python machine behaviour that matters here and is modelled explicitly:
list indexing with negative wrap-around (`xs[-1]` is the last element),
`list.index` raising `ValueError`, out-of-range indexing raising
`IndexError`, and the fact that `MathObj` instances define no `__eq__`, so
comparing a node against a string or against `0` is identity comparison and
yields `False`.  CPython `float` values are modelled as exact rationals; no
claim depends on binary floating-point rounding.  Results of the
real-valued library functions (`math.sin`, `math.sqrt`, ...) are carried as
uninterpreted `realV` values; no claim constrains them.
-/

namespace Parsematic

/-- PyErr enumerates the Python exception classes that the embedded code can
raise: `ValueError`, `TypeError`, `AttributeError`, `IndexError`,
`ZeroDivisionError` and `SyntaxError`. -/
inductive PyErr where
  | valueErr
  | typeErr
  | attrErr
  | indexErr
  | zeroDivErr
  | synErr
deriving DecidableEq

/-- PyVal is the value domain of the evaluator: Python `int`, `float`
(modelled as an exact rational), `bool`, the float specials `nan` and
`inf`, `str` (results of `chr`/`bin`/`hex`/`oct`), and uninterpreted
real-library results. -/
inductive PyVal where
  | intV (z : Int)
  | floatV (q : Rat)
  | boolV (b : Bool)
  | nanV
  | infV
  | strV (s : List Char)
  | realV (tag : List Char)
deriving DecidableEq

/-- Conv is the `self.conv` field of `MathNum`: the Python `int` or `float`
conversion function. -/
inductive Conv where
  | toIntC
  | toFloatC
deriving DecidableEq

/-- NumLit is the `self.value` field of `MathNum`: either the original
string token, or a Python number (the constants in `MathConst.constants`
are built directly from floats). -/
inductive NumLit where
  | ofStr (s : List Char)
  | ofVal (v : PyVal)
deriving DecidableEq

/-- OpFun is the resolved `self.op` callable of a `MathOp` node: one of the
thirteen `operator` module functions of `MathOp.operators`, or
`MathOp.ret_nan` when the (dead, see `objEqZeroInt`) division-by-zero guard
fires. -/
inductive OpFun where
  | powF
  | floordivF
  | truedivF
  | mulF
  | modF
  | addF
  | subF
  | eqF
  | neF
  | ltF
  | gtF
  | leF
  | geF
  | retNanF
deriving DecidableEq

/-- Tok is one element of the tokenizer's working list.  Python mixes raw
strings and `MathObj` instances in the same list, so the embedding does
too: `str` is a raw string token, the other constructors are the `MathObj`
subclasses (`MathObj()` itself, `MathNum`, `MathOp`, `MathFunc`).  A
`MathFunc` node always carries its argument tuple: a violated arity bound
never produces a node, because building the `ArgumentError` the source
would store in `self.args` itself raises (see `mkMathFunc`). -/
inductive Tok where
  | str (s : List Char)
  | base
  | num (conv : Conv) (lit : NumLit)
  | opNode (f : OpFun) (v1 v2 : Tok)
  | funcNode (name : List Char) (args : List Tok)

/-- isDigitChar is the ASCII regex class `\d`. -/
def isDigitChar (c : Char) : Bool := '0' ≤ c && c ≤ '9'

/-- isWordChar is the ASCII regex class `\w`: letters, digits and the
underscore. -/
def isWordChar (c : Char) : Bool := c.isAlpha || isDigitChar c || c = '_'

/-- matchAt tries the token pattern at the start of `cs` and returns the
matched token together with the rest of the input.  The alternative order
of the Python pattern is preserved: a decimal-point number, an integer,
`//`, `**`, `+`, `-`, `*`, `/`, a word, `(`, `)`. -/
def matchAt (cs : List Char) : Option (List Char × List Char) :=
  match cs with
  | [] => none
  | c :: rest =>
    if isDigitChar c then
      -- alternatives `\d+\.\d+` and `\d+`: backtracking over the first
      -- `\d+` cannot help, because shortening it puts a digit (not `.`)
      -- after it, so the greedy split is exact.
      let d1 := (c :: rest).takeWhile isDigitChar
      let r1 := (c :: rest).dropWhile isDigitChar
      if r1.head? = some '.' then
        let d2 := r1.tail.takeWhile isDigitChar
        if d2 = [] then some (d1, r1)
        else some (d1 ++ '.' :: d2, r1.tail.dropWhile isDigitChar)
      else some (d1, r1)
    else if c = '/' then
      if rest.head? = some '/' then some (['/', '/'], rest.tail)
      else some (['/'], rest)
    else if c = '*' then
      if rest.head? = some '*' then some (['*', '*'], rest.tail)
      else some (['*'], rest)
    else if c = '+' then some (['+'], rest)
    else if c = '-' then some (['-'], rest)
    else if isWordChar c then
      some ((c :: rest).takeWhile isWordChar, (c :: rest).dropWhile isWordChar)
    else if c = '(' then some (['('], rest)
    else if c = ')' then some ([')'], rest)
    else none

/-- findallF is `re.findall` with explicit fuel; one unit of fuel is spent
per input position, so `cs.length` fuel always suffices
(`findallF_fuel_congr`). -/
def findallF : Nat → List Char → List (List Char)
  | 0, _ => []
  | fuel + 1, cs =>
    match matchAt cs with
    | some (t, r) => t :: findallF fuel r
    | none =>
      match cs with
      | [] => []
      | _ :: rest => findallF fuel rest

/-- findall is `re.findall(self.pattern, expression)`. -/
def findall (cs : List Char) : List (List Char) := findallF cs.length cs

/-- cl converts a string literal to the character-list representation used
throughout the embedding. -/
def cl (s : String) : List Char := s.toList

/-- operators is `MathOp.operators`: symbol to `operator`-module function,
in insertion order. -/
def operators : List (List Char × OpFun) :=
  [(cl ("**"), .powF), (cl ("//"), .floordivF), (cl ("/"), .truedivF),
   (cl ("*"), .mulF), (cl ("%"), .modF), (cl ("+"), .addF), (cl ("-"), .subF),
   (cl ("=="), .eqF), (cl ("!="), .neF), (cl ("<"), .ltF), (cl (">"), .gtF),
   (cl ("<="), .leF), (cl (">="), .geF)]

/-- opKeys is the key set of `MathOp.operators`, in iteration order. -/
def opKeys : List (List Char) := operators.map Prod.fst

/-- constants is `MathConst.constants`: each value is `MathNum(x)` for the
float `x`, so its `conv` is `float`.  `PI`, `TAU` and `E` carry
uninterpreted real values (no claim evaluates them — and no constant can
reach the evaluator through `parse`, see `numConvert`); `INF` and `NAN`
carry the float specials. -/
def constants : List (List Char × Tok) :=
  [(cl ("PI"), .num .toFloatC (.ofVal (.realV (cl ("PI"))))),
   (cl ("TAU"), .num .toFloatC (.ofVal (.realV (cl ("TAU"))))),
   (cl ("E"), .num .toFloatC (.ofVal (.realV (cl ("E"))))),
   (cl ("INF"), .num .toFloatC (.ofVal .infV)),
   (cl ("NAN"), .num .toFloatC (.ofVal .nanV))]

/-- constKeys is the key set of `MathConst.constants`. -/
def constKeys : List (List Char) := constants.map Prod.fst

/-- funcs is `MathFunc.funcs` restricted to the data the parser reads from
it: each function name with its inclusive (min, max) arity bounds, in
insertion order.  The callables themselves are interpreted by `applyFunc`
below. -/
def funcs : List (List Char × Nat × Nat) :=
  [(cl ("fact"), 1, 1), (cl ("factorial"), 1, 1), (cl ("sin"), 1, 1),
   (cl ("cos"), 1, 1), (cl ("tan"), 1, 1), (cl ("abs"), 1, 1),
   (cl ("sqrt"), 1, 1), (cl ("log"), 1, 2), (cl ("log2"), 1, 1),
   (cl ("log10"), 1, 1), (cl ("gcd"), 2, 1000), (cl ("lcm"), 2, 1000),
   (cl ("xor"), 2, 2), (cl ("int"), 1, 1), (cl ("float"), 1, 1),
   (cl ("min"), 2, 1000), (cl ("max"), 2, 1000), (cl ("not"), 1, 1),
   (cl ("round"), 1, 2), (cl ("ceil"), 1, 1), (cl ("floor"), 1, 1),
   (cl ("chr"), 1, 1), (cl ("bin"), 1, 1), (cl ("hex"), 1, 1),
   (cl ("oct"), 1, 1), (cl ("hash"), 1, 1), (cl ("hypot"), 1, 1000)]

/-- funcKeys is the key set of `MathFunc.funcs`. -/
def funcKeys : List (List Char) := funcs.map Prod.fst

/-- tokEqStr models the Python comparison `element == s` for a string `s`:
it is true only when the element is that same string.  `MathObj` and its
subclasses define no `__eq__`, so comparing a node with a string falls
back to identity and yields `False`. -/
def tokEqStr : Tok → List Char → Bool
  | .str s, t => s == t
  | _, _ => false

/-- idxOfStr models `tokens.index(s)`: the first index whose element equals
the string `s`, `none` when Python would raise `ValueError`. -/
def idxOfStr (ts : List Tok) (s : List Char) : Option Nat :=
  ts.findIdx? (fun t => tokEqStr t s)

/-- countStr models `tokens.count(s)`. -/
def countStr (ts : List Tok) (s : List Char) : Nat :=
  (ts.filter (fun t => tokEqStr t s)).length

/-- hasStr models `s in tokens`. -/
def hasStr (ts : List Tok) (s : List Char) : Bool :=
  ts.any (fun t => tokEqStr t s)

/-- pyGet models `tokens[i]` for a Python `int` index: negative indices
wrap once by the length, and an index still out of range raises
`IndexError`. -/
def pyGet (ts : List Tok) (i : Int) : Except PyErr Tok :=
  let n : Int := ts.length
  let j := if i < 0 then i + n else i
  if 0 ≤ j ∧ j < n then .ok (ts.getD j.toNat .base) else .error .indexErr

/-- pySet models `tokens[i] = t`. -/
def pySet (ts : List Tok) (i : Int) (t : Tok) : Except PyErr (List Tok) :=
  let n : Int := ts.length
  let j := if i < 0 then i + n else i
  if 0 ≤ j ∧ j < n then .ok (ts.set j.toNat t) else .error .indexErr

/-- pyDel models `del tokens[i]`. -/
def pyDel (ts : List Tok) (i : Int) : Except PyErr (List Tok) :=
  let n : Int := ts.length
  let j := if i < 0 then i + n else i
  if 0 ≤ j ∧ j < n then .ok (ts.eraseIdx j.toNat) else .error .indexErr

/-- regexNum is `re.match(r"^-?\d+(?:\.\d+)?$", n)` as a boolean. -/
def regexNum (s : List Char) : Bool :=
  let t := if s.head? = some '-' then s.tail else s
  let d1 := t.takeWhile isDigitChar
  let r1 := t.dropWhile isDigitChar
  d1 ≠ [] && (r1 = [] ||
    (r1.head? = some '.' && r1.tail ≠ [] && r1.tail.all isDigitChar))

/-- is_number is the module-level helper of the source: `n.isnumeric()`
(for the ASCII inputs of the claims: nonempty and all digits) or the
anchored regex above. -/
def is_number (s : List Char) : Bool :=
  (s ≠ [] && s.all isDigitChar) || regexNum s

/-- mkMathNum is `MathNum(n)` for a string argument: the conversion is
`float` when the token contains a decimal point and `int` otherwise, and
the original string is stored; a non-number raises `ValueError`. -/
def mkMathNum (s : List Char) : Except PyErr Tok :=
  if is_number s then
    if s.contains '.' then .ok (.num .toFloatC (.ofStr s))
    else .ok (.num .toIntC (.ofStr s))
  else .error .valueErr

/-- should_combine_tokens from the source, with `prev` standing for
`tokens[i - 1]` (`none` when `i == 0`): a `-` merges with the following
token when it is the first token or directly follows an operator symbol. -/
def should_combine_tokens (tok : List Char) (prev : Option (List Char)) : Bool :=
  tok == ['-'] && (prev.isNone || prev.any (fun p => opKeys.contains p))

/-- lookupConst is `MathConst.constants[s]` (present by the membership
guard at its call site). -/
def lookupConst (s : List Char) : Tok :=
  ((constants.find? (fun p => p.1 == s)).map Prod.snd).getD .base

/-- combineLoop is the `while i < len(tokens)` loop of `tokenize`
(lines 276-287): a unary-position `-` is merged with the *next* raw token
into one string, constant names are replaced by their nodes, everything
else is kept as a raw token.  Reading `tokens[i + 1]` past the end raises
`IndexError`. -/
def combineLoop (prev : Option (List Char)) :
    List (List Char) → Except PyErr (List Tok)
  | [] => .ok []
  | tok :: rest =>
    if should_combine_tokens tok prev then
      match rest with
      | [] => .error .indexErr
      | nxt :: rest2 => do
        let xs ← combineLoop (some nxt) rest2
        .ok (.str (tok ++ nxt) :: xs)
    else if constKeys.contains tok then do
      let xs ← combineLoop (some tok) rest
      .ok (lookupConst tok :: xs)
    else do
      let xs ← combineLoop (some tok) rest
      .ok (.str tok :: xs)

/-- numConvert is the comprehension at lines 289-292:
`MathNum(token) if is_number(token) else token`.  `is_number` begins with
`n.isnumeric()`, so applying it to a non-string element (a constant node
placed by the previous pass) raises `AttributeError`. -/
def numConvert : Tok → Except PyErr Tok
  | .str s => if is_number s then mkMathNum s else .ok (.str s)
  | _ => .error .attrErr

/-- lex is the lexing stage of `tokenize` (lines 267-292): `re.findall`,
the unary-minus merge with constant substitution, and the number
mapping. -/
def lex (cs : List Char) : Except PyErr (List Tok) := do
  let toks ← combineLoop none (findall cs)
  toks.mapM numConvert

/-- lastLParen is `max(idx for idx, val in enumerate(xs) if val == "(")`:
the greatest index holding a `(`, or `none` where Python's `max` raises
`ValueError` on an empty generator. -/
def lastLParen (xs : List Tok) : Option Nat :=
  ((xs.enum.filter (fun p => tokEqStr p.2 (cl ("(")))).map Prod.fst).max?

/-- find_parentheses is `MathParser.find_parentheses` on a token list:
`SyntaxError` when the `(` and `)` counts differ, `none` (Python
`(None, None)`) when there are none, otherwise the index of the first `)`
and of the last `(` before it.  A `)` with no `(` before it makes the
`max` raise `ValueError`; `expr.index(")")` is modelled with its
`ValueError` too although it cannot fail after the count check. -/
def find_parentheses (ts : List Tok) : Except PyErr (Option (Nat × Nat)) :=
  if countStr ts (cl ("(")) ≠ countStr ts (cl (")")) then .error .synErr
  else if countStr ts (cl ("(")) = 0 then .ok none
  else
    match idxOfStr ts (cl (")")) with
    | none => .error .valueErr
    | some p2 =>
      match lastLParen (ts.take p2) with
      | none => .error .valueErr
      | some p1 => .ok (some (p1, p2))

/-- objEqZeroInt models the test `value2 == 0` in `MathOp.__init__`:
`value2` is a `MathObj` node (or a raw string), `0` an `int`; neither
defines a cross-type `__eq__`, so Python falls back to identity comparison
and the test is always `False`.  The division-by-zero guard that would
swap in `ret_nan` is therefore dead code. -/
def objEqZeroInt (_ : Tok) : Bool := false

/-- mkMathOp is `MathOp(op, value1, value2)` at the two fold sites, where
`op` is always a key of the operator table (the unknown-operator
`ValueError` branch is unreachable there): the node stores the table's
callable unless the (dead, see `objEqZeroInt`) zero-divisor guard replaces
it by `ret_nan`. -/
def mkMathOp (op : List Char) (f : OpFun) (v1 v2 : Tok) : Tok :=
  if (op == cl ("/") || op == cl ("//")) && objEqZeroInt v2 then
    .opNode .retNanF v1 v2
  else .opNode f v1 v2

/-- foldOpF is the inner `while found != -1` fold for one operator
(lines 303-310 inside parentheses, 331-338 in the final fold): find the
operator symbol, combine it with its two neighbours — Python indexing, so
`found - 1` wraps to the last element when `found` is `0`, and
`found + 1` past the end raises `IndexError` — and delete the consumed
neighbours.  The loop leaves via the `ValueError` of the re-run
`tokens.index(op)`, caught by `except ValueError: continue`, hence the
`.ok` result.  One unit of fuel is spent per successful fold and each fold
shortens the list by two, so `ts.length` fuel always suffices. -/
def foldOpF (op : List Char) (f : OpFun) : Nat → List Tok → Except PyErr (List Tok)
  | 0, ts => .ok ts
  | fuel + 1, ts =>
    match idxOfStr ts op with
    | none => .ok ts
    | some found => do
      let v1 ← pyGet ts ((found : Int) - 1)
      let v2 ← pyGet ts ((found : Int) + 1)
      let ts1 ← pySet ts ((found : Int)) (mkMathOp op f v1 v2)
      let ts2 ← pyDel ts1 ((found : Int) + 1)
      let ts3 ← pyDel ts2 ((found : Int) - 1)
      foldOpF op f fuel ts3

/-- foldOp runs `foldOpF` with always-sufficient fuel. -/
def foldOp (op : List Char) (f : OpFun) (ts : List Tok) :
    Except PyErr (List Tok) :=
  foldOpF op f ts.length ts

/-- foldAll is the `for op in MathOp.operators` loop: every operator is
folded to exhaustion in table order.  A `ValueError` (symbol not found) is
the normal continue path; an `IndexError` propagates to the caller. -/
def foldAll (ts : List Tok) : Except PyErr (List Tok) :=
  operators.foldlM (fun acc p => foldOp p.1 p.2 acc) ts

/-- lookupFunc is `MathFunc.funcs.get(funcname, (None, None, None))`
projected to the arity bounds. -/
def lookupFunc (s : List Char) : Option (Nat × Nat) :=
  (funcs.find? (fun p => p.1 == s)).map Prod.snd

/-- tokInFuncs models `element in MathFunc.funcs`: dict key membership is
true only for a string element equal to a key — a node instance never
equals a string key. -/
def tokInFuncs : Tok → Bool
  | .str s => funcKeys.contains s
  | _ => false

/-- strOf projects the characters out of a raw string token (used only
under a `tokInFuncs` guard). -/
def strOf : Tok → List Char
  | .str s => s
  | _ => []

/-- mkMathFunc is `MathFunc(funcname, *args)`: an unknown name raises
`ValueError` (unreachable from `parse`, which only constructs a `MathFunc`
for names present in the table).  On a violated arity bound the source
evaluates `ArgumentError("", message=...)` to store it in `self.args`, but
that constructor call itself raises `AttributeError`:
`argparse.ArgumentError.__init__` runs `_get_action_name("")`, which reads
`"".option_strings`, an attribute no `str` has.  So the arity-failure
branch raises `AttributeError` inside `MathFunc.__init__` and no node is
built. -/
def mkMathFunc (name : List Char) (args : List Tok) : Except PyErr Tok :=
  match lookupFunc name with
  | none => .error .valueErr
  | some (mn, mx) =>
    if args.length ≤ mx && mn ≤ args.length then .ok (.funcNode name args)
    else .error .attrErr

/-- parenStep is one iteration of the `while "(" in updated_tokens` loop
(lines 295-324): locate the innermost pair, fold the slice strictly
between it, then either collapse `name(...)` into a `MathFunc` node or
splice the folded slice back in place of the span.  It is entered only
with a `(` present, so the no-parenthesis answer cannot occur (that case
returns the list unchanged).  `updated_tokens[p1 - 1]` uses Python
wrap-around indexing: for `p1 == 0` it is the *last* element.  The dead
`if len(expr) > 1: pass` of the source is omitted. -/
def parenStep (ts : List Tok) : Except PyErr (List Tok) := do
  match ← find_parentheses ts with
  | none => .ok ts
  | some (p1, p2) => do
    let before ← pyGet ts ((p1 : Int) - 1)
    let funcargs := tokInFuncs before
    let expr ← foldAll ((ts.take p2).drop (p1 + 1))
    if funcargs then do
      let node ← mkMathFunc (strOf before) expr
      let ts2 ← pySet ts ((p1 : Int) - 1) node
      .ok (ts2.take p1 ++ ts2.drop (p2 + 1))
    else
      .ok (ts.take p1 ++ expr ++ ts.drop (p2 + 1))

/-- parenLoopF is the `while "(" in updated_tokens` loop with explicit
fuel.  Each successful iteration removes at least the matched pair (the
fold between the parentheses never lengthens its slice), so `ts.length`
fuel always suffices and the fuel-exhaustion branch is unreachable. -/
def parenLoopF : Nat → List Tok → Except PyErr (List Tok)
  | 0, ts => .ok ts
  | fuel + 1, ts =>
    if hasStr ts (cl ("(")) then do
      let ts2 ← parenStep ts
      parenLoopF fuel ts2
    else .ok ts

/-- parenLoop runs `parenLoopF` with always-sufficient fuel. -/
def parenLoop (ts : List Tok) : Except PyErr (List Tok) :=
  parenLoopF ts.length ts

/-- mapIdxToSyn converts an `IndexError` escaping a final-fold pass into
the `SyntaxError` its handler raises (lines 341-344).  The handler sits
inside the per-operator loop, but as any raise aborts the whole fold, the
conversion commutes with the loop. -/
def mapIdxToSyn : Except PyErr (List Tok) → Except PyErr (List Tok)
  | .error .indexErr => .error .synErr
  | r => r

/-- finalFoldPass is one pass of the final `for op in MathOp.operators`
fold with its `except IndexError` handler. -/
def finalFoldPass (ts : List Tok) : Except PyErr (List Tok) :=
  mapIdxToSyn (foldAll ts)

/-- finalLoopF is `while len(tokens) > 1 and iters < 100` (lines 327-345);
the fuel counts the iterations remaining out of 100.  Note the loop does
*not* raise when the budget runs out with more than one token left: it
just stops. -/
def finalLoopF : Nat → List Tok → Except PyErr (List Tok)
  | 0, ts => .ok ts
  | fuel + 1, ts =>
    if ts.length > 1 then do
      let ts2 ← finalFoldPass ts
      finalLoopF fuel ts2
    else .ok ts

/-- tokenize is `MathParser.tokenize`: the lexing stage, the parenthesis
loop, the bounded final fold, then the first remaining token — or a plain
`MathObj()` when the list is empty (lines 347-349). -/
def tokenize (cs : List Char) : Except PyErr Tok := do
  let ts ← lex cs
  let ts2 ← parenLoop ts
  let ts3 ← finalLoopF 100 ts2
  match ts3 with
  | [] => .ok .base
  | t :: _ => .ok t

/-- digitsToNat is the decimal value of a digit string. -/
def digitsToNat (s : List Char) : Nat :=
  s.foldl (fun acc c => 10 * acc + (c.toNat - ('0').toNat)) 0

/-- pyIntOfString is Python `int(s)` for the strings the parser stores in
a `MathNum`: an optional `-` sign followed by decimal digits (whitespace,
`+` signs and underscores never occur in a stored token). -/
def pyIntOfString (s : List Char) : Except PyErr Int :=
  if s.head? = some '-' then
    if s.tail ≠ [] && s.tail.all isDigitChar then
      .ok (-(digitsToNat s.tail : Int))
    else .error .valueErr
  else
    if s ≠ [] && s.all isDigitChar then .ok ((digitsToNat s : Int))
    else .error .valueErr

/-- pyFloatOfString is Python `float(s)` for stored tokens: optional sign,
digits, optional decimal fraction. -/
def pyFloatOfString (s : List Char) : Except PyErr Rat :=
  let neg := s.head? = some '-'
  let t := if neg then s.tail else s
  let d1 := t.takeWhile isDigitChar
  let r := t.dropWhile isDigitChar
  if d1 = [] then .error .valueErr
  else
    let fracOk : Bool := r = [] || (r.head? = some '.' && r.tail.all isDigitChar)
    if fracOk then
      let fr : Rat :=
        if r = [] then 0
        else (digitsToNat r.tail : Rat) / ((10 : Rat) ^ r.tail.length)
      let v := (digitsToNat d1 : Rat) + fr
      .ok (if neg then -v else v)
    else .error .valueErr

/-- pyIntOfVal is Python `int(x)` on a value: floats truncate toward zero,
`int(nan)` raises `ValueError` (`int(inf)` raises `OverflowError`,
rendered as `ValueError` here; both are unreachable from `parse`), and a
string parses as an integer literal. -/
def pyIntOfVal : PyVal → Except PyErr PyVal
  | .intV z => .ok (.intV z)
  | .boolV b => .ok (.intV (if b then 1 else 0))
  | .floatV q => .ok (.intV (if 0 ≤ q then (q.floor) else -((-q).floor)))
  | .strV s => (pyIntOfString s).map .intV
  | .nanV => .error .valueErr
  | .infV => .error .valueErr
  | .realV t => .ok (.realV t)

/-- convApply is `self.conv(self.value)` in `MathNum.calc`. -/
def convApply : Conv → NumLit → Except PyErr PyVal
  | .toIntC, .ofStr s => (pyIntOfString s).map .intV
  | .toFloatC, .ofStr s => (pyFloatOfString s).map .floatV
  | .toIntC, .ofVal v => pyIntOfVal v
  | .toFloatC, .ofVal v => .ok v

/-- asIntOf views a value as a Python `int` where `int` arithmetic
applies; `bool` is an `int` subclass with values 0 and 1. -/
def asIntOf : PyVal → Option Int
  | .intV z => some z
  | .boolV b => some (if b then 1 else 0)
  | _ => none

/-- asRatOf views a value as an exact number where `int`/`float`
arithmetic applies. -/
def asRatOf : PyVal → Option Rat
  | .intV z => some (z : Rat)
  | .boolV b => some (if b then 1 else 0)
  | .floatV q => some q
  | _ => none

/-- hasNan is true when either operand is the float `nan`. -/
def hasNan (a b : PyVal) : Bool :=
  (a matches .nanV) || (b matches .nanV)

/-- hasUninterp is true when either operand is an uninterpreted real or an
infinity (infinities cannot reach the evaluator through `parse`: the
`INF` constant crashes in `numConvert` first). -/
def hasUninterp (a b : PyVal) : Bool :=
  (a matches .realV _) || (b matches .realV _) ||
    (a matches .infV) || (b matches .infV)

/-- strLtB is Python lexicographic `str < str`. -/
def strLtB : List Char → List Char → Bool
  | [], [] => false
  | [], _ :: _ => true
  | _ :: _, [] => false
  | a :: as, b :: bs => if a < b then true else if b < a then false else strLtB as bs

/-- ratOfInt pairs two int-like operands. -/
def bothInt (a b : PyVal) : Option (Int × Int) :=
  match asIntOf a, asIntOf b with
  | some x, some y => some (x, y)
  | _, _ => none

/-- bothRat pairs two number-like operands. -/
def bothRat (a b : PyVal) : Option (Rat × Rat) :=
  match asRatOf a, asRatOf b with
  | some x, some y => some (x, y)
  | _, _ => none

/-- applyCmp is one of the six `operator` comparison callables: numeric
operands compare by value (`bool` counts as its integer value), `nan`
compares unequal to everything, strings compare lexicographically, and a
number never equals a string.  Comparisons with an uninterpreted operand
are uninterpreted.  Unordered cross-type comparisons raise `TypeError`. -/
def applyCmp (f : OpFun) (a b : PyVal) : Except PyErr PyVal :=
  if hasUninterp a b then .ok (.realV (cl ("cmp"))) else
  if hasNan a b then
    match f with
    | .eqF => .ok (.boolV false)
    | .neF => .ok (.boolV true)
    | _ => .ok (.boolV false)
  else
    match bothRat a b with
    | some (x, y) =>
      match f with
      | .eqF => .ok (.boolV (x == y))
      | .neF => .ok (.boolV (x != y))
      | .ltF => .ok (.boolV (x < y))
      | .gtF => .ok (.boolV (y < x))
      | .leF => .ok (.boolV (x ≤ y))
      | .geF => .ok (.boolV (y ≤ x))
      | _ => .error .typeErr
    | none =>
      match a, b with
      | .strV s, .strV t =>
        match f with
        | .eqF => .ok (.boolV (s == t))
        | .neF => .ok (.boolV (s != t))
        | .ltF => .ok (.boolV (strLtB s t))
        | .gtF => .ok (.boolV (strLtB t s))
        | .leF => .ok (.boolV (!(strLtB t s)))
        | .geF => .ok (.boolV (!(strLtB s t)))
        | _ => .error .typeErr
      | _, _ =>
        match f with
        | .eqF => .ok (.boolV false)
        | .neF => .ok (.boolV true)
        | _ => .error .typeErr

/-- applyOpFun is `self.op(a, b)` for the resolved operator callable.
Exact `int` arithmetic and exact-rational `float` arithmetic are
interpreted; `**` with a non-integral exponent is an uninterpreted real;
division, floor division and modulo by zero raise `ZeroDivisionError`;
`ret_nan` ignores its operands and returns `nan`. -/
def applyOpFun : OpFun → PyVal → PyVal → Except PyErr PyVal
  | .retNanF, _, _ => .ok .nanV
  | .eqF, a, b => applyCmp .eqF a b
  | .neF, a, b => applyCmp .neF a b
  | .ltF, a, b => applyCmp .ltF a b
  | .gtF, a, b => applyCmp .gtF a b
  | .leF, a, b => applyCmp .leF a b
  | .geF, a, b => applyCmp .geF a b
  | .addF, a, b =>
    if hasUninterp a b then .ok (.realV (cl ("arith"))) else
    if hasNan a b then .ok .nanV else
    match bothInt a b with
    | some (x, y) => .ok (.intV (x + y))
    | none =>
      match bothRat a b with
      | some (x, y) => .ok (.floatV (x + y))
      | none =>
        match a, b with
        | .strV s, .strV t => .ok (.strV (s ++ t))
        | _, _ => .error .typeErr
  | .subF, a, b =>
    if hasUninterp a b then .ok (.realV (cl ("arith"))) else
    if hasNan a b then .ok .nanV else
    match bothInt a b with
    | some (x, y) => .ok (.intV (x - y))
    | none =>
      match bothRat a b with
      | some (x, y) => .ok (.floatV (x - y))
      | none => .error .typeErr
  | .mulF, a, b =>
    if hasUninterp a b then .ok (.realV (cl ("arith"))) else
    if hasNan a b then .ok .nanV else
    match bothInt a b with
    | some (x, y) => .ok (.intV (x * y))
    | none =>
      match bothRat a b with
      | some (x, y) => .ok (.floatV (x * y))
      | none =>
        match a, b with
        | .strV s, .intV n => .ok (.strV ((List.replicate n.toNat s).flatten))
        | .intV n, .strV s => .ok (.strV ((List.replicate n.toNat s).flatten))
        | _, _ => .error .typeErr
  | .truedivF, a, b =>
    if hasUninterp a b then .ok (.realV (cl ("arith"))) else
    if hasNan a b then .ok .nanV else
    match bothRat a b with
    | some (x, y) => if y = 0 then .error .zeroDivErr else .ok (.floatV (x / y))
    | none => .error .typeErr
  | .floordivF, a, b =>
    if hasUninterp a b then .ok (.realV (cl ("arith"))) else
    if hasNan a b then .ok .nanV else
    match bothInt a b with
    | some (x, y) => if y = 0 then .error .zeroDivErr else .ok (.intV (Int.fdiv x y))
    | none =>
      match bothRat a b with
      | some (x, y) =>
        if y = 0 then .error .zeroDivErr else .ok (.floatV ((x / y).floor : Rat))
      | none => .error .typeErr
  | .modF, a, b =>
    if hasUninterp a b then .ok (.realV (cl ("arith"))) else
    if hasNan a b then .ok .nanV else
    match bothInt a b with
    | some (x, y) => if y = 0 then .error .zeroDivErr else .ok (.intV (Int.fmod x y))
    | none =>
      match bothRat a b with
      | some (x, y) =>
        if y = 0 then .error .zeroDivErr
        else .ok (.floatV (x - y * ((x / y).floor : Rat)))
      | none => .error .typeErr
  | .powF, a, b =>
    if hasUninterp a b then .ok (.realV (cl ("arith"))) else
    if hasNan a b then .ok .nanV else
    match bothInt a b with
    | some (x, y) =>
      if 0 ≤ y then .ok (.intV (x ^ y.toNat))
      else if x = 0 then .error .zeroDivErr
      else .ok (.floatV ((1 : Rat) / ((x : Rat) ^ (-y).toNat)))
    | none =>
      match bothRat a b with
      | some (x, y) =>
        if y.den = 1 then
          if 0 ≤ y.num then .ok (.floatV (x ^ y.num.toNat))
          else if x = 0 then .error .zeroDivErr
          else .ok (.floatV ((1 : Rat) / (x ^ (-y.num).toNat)))
        else .ok (.realV (cl ("pow")))
      | none => .error .typeErr

/-- truthy is Python truthiness for the values that can appear here. -/
def truthy : PyVal → Bool
  | .intV z => z != 0
  | .floatV q => q != 0
  | .boolV b => b
  | .nanV => true
  | .infV => true
  | .strV s => !s.isEmpty
  | .realV _ => true

/-- roundHalfEven is Python `round` on an exact rational: nearest integer,
ties to even. -/
def roundHalfEven (q : Rat) : Int :=
  let f := q.floor
  let r := q - (f : Rat)
  if r < 1 / 2 then f
  else if 1 / 2 < r then f + 1
  else if f % 2 = 0 then f else f + 1

/-- intLits projects a list of values to Python ints when every element is
int-like. -/
def intLits (vs : List PyVal) : Option (List Int) :=
  vs.mapM asIntOf

/-- ratLits projects a list of values to exact numbers when every element
is number-like. -/
def ratLits (vs : List PyVal) : Option (List Rat) :=
  vs.mapM asRatOf

/-- pickBy returns the element of `vs` whose rational view is extremal for
`better` (first among ties), as Python `min`/`max` do. -/
def pickBy (better : Rat → Rat → Bool) (vs : List PyVal) : Except PyErr PyVal :=
  match vs, ratLits vs with
  | v :: rest, some (q :: qs) =>
    let step := fun (acc : PyVal × Rat) (p : PyVal × Rat) =>
      if better p.2 acc.2 then p else acc
    .ok ((List.foldl step (v, q) (rest.zip qs)).1)
  | _, _ => .error .typeErr

/-- natToPyBase renders `bin`/`hex`/`oct` output the way Python does. -/
def natToPyBase (b : Nat) (tag : List Char) (z : Int) : List Char :=
  let digits := Nat.toDigits b z.natAbs
  (if z < 0 then ['-'] else []) ++ tag ++ digits

/-- applyFunc is `self.func(*values)` for the function catalogue.
Functions with exact integer or rational semantics are interpreted
exactly; the real-valued library functions (`sin`, `cos`, `tan`, `sqrt`,
`log`, `log2`, `log10`, `hypot`) return uninterpreted values, as do
`hash` (platform-defined for large values) and argument patterns no claim
reaches (two-argument `round`, surrogate `chr`, bitwise operations on
negative ints). -/
def applyFunc (name : List Char) (vs : List PyVal) : Except PyErr PyVal :=
  if name == cl ("fact") || name == cl ("factorial") then
    match intLits vs with
    | some [x] => if 0 ≤ x then .ok (.intV (Nat.factorial x.toNat)) else .error .valueErr
    | _ => .error .typeErr
  else if name == cl ("sin") || name == cl ("cos") || name == cl ("tan") ||
      name == cl ("sqrt") || name == cl ("log") || name == cl ("log2") ||
      name == cl ("log10") || name == cl ("hypot") then
    .ok (.realV name)
  else if name == cl ("abs") then
    match vs with
    | [.intV z] => .ok (.intV z.natAbs)
    | [.boolV b] => .ok (.intV (if b then 1 else 0))
    | [.floatV q] => .ok (.floatV |q|)
    | [.nanV] => .ok .nanV
    | [.infV] => .ok .infV
    | [.realV _] => .ok (.realV name)
    | _ => .error .typeErr
  else if name == cl ("gcd") then
    match intLits vs with
    | some xs => .ok (.intV ((xs.foldl (fun (acc : Nat) x => Nat.gcd acc x.natAbs) 0 : Nat) : Int))
    | none => .error .typeErr
  else if name == cl ("lcm") then
    -- the table entry is the binary lambda `(a * b) // math.gcd(a, b)`
    match intLits vs with
    | some [x, y] =>
      if Int.gcd x y = 0 then .error .zeroDivErr
      else .ok (.intV (Int.fdiv (x * y) (Int.gcd x y)))
    | _ => .error .typeErr
  else if name == cl ("xor") then
    match intLits vs with
    | some [x, y] =>
      if 0 ≤ x && 0 ≤ y then .ok (.intV (Nat.xor x.toNat y.toNat))
      else .ok (.realV name)
    | _ => .error .typeErr
  else if name == cl ("int") then
    match vs with
    | [v] => pyIntOfVal v
    | _ => .error .typeErr
  else if name == cl ("float") then
    match vs with
    | [.intV z] => .ok (.floatV (z : Rat))
    | [.boolV b] => .ok (.floatV (if b then 1 else 0))
    | [.floatV q] => .ok (.floatV q)
    | [.strV s] => (pyFloatOfString s).map .floatV
    | [.nanV] => .ok .nanV
    | [.infV] => .ok .infV
    | [.realV _] => .ok (.realV name)
    | _ => .error .typeErr
  else if name == cl ("min") then
    pickBy (fun p q => p < q) vs
  else if name == cl ("max") then
    pickBy (fun p q => q < p) vs
  else if name == cl ("not") then
    match vs with
    | [.realV _] => .ok (.realV name)
    | [v] => .ok (.boolV (!truthy v))
    | _ => .error .typeErr
  else if name == cl ("round") then
    match vs with
    | [.intV z] => .ok (.intV z)
    | [.boolV b] => .ok (.intV (if b then 1 else 0))
    | [.floatV q] => .ok (.intV (roundHalfEven q))
    | [.nanV] => .error .valueErr
    | [.infV] => .error .valueErr
    | [.realV _] => .ok (.realV name)
    | _ => .ok (.realV name)
  else if name == cl ("ceil") then
    match vs with
    | [.intV z] => .ok (.intV z)
    | [.boolV b] => .ok (.intV (if b then 1 else 0))
    | [.floatV q] => .ok (.intV q.ceil)
    | [.nanV] => .error .valueErr
    | [.infV] => .error .valueErr
    | [.realV _] => .ok (.realV name)
    | _ => .error .typeErr
  else if name == cl ("floor") then
    match vs with
    | [.intV z] => .ok (.intV z)
    | [.boolV b] => .ok (.intV (if b then 1 else 0))
    | [.floatV q] => .ok (.intV q.floor)
    | [.nanV] => .error .valueErr
    | [.infV] => .error .valueErr
    | [.realV _] => .ok (.realV name)
    | _ => .error .typeErr
  else if name == cl ("chr") then
    match intLits vs with
    | some [x] =>
      if 0 ≤ x && x < 1114112 then
        if x < 55296 || 57343 < x then .ok (.strV [Char.ofNat x.toNat])
        else .ok (.realV name)   -- surrogate code points are not Lean chars
      else .error .valueErr
    | _ => .error .typeErr
  else if name == cl ("bin") then
    match intLits vs with
    | some [x] => .ok (.strV (natToPyBase 2 (cl ("0b")) x))
    | _ => .error .typeErr
  else if name == cl ("hex") then
    match intLits vs with
    | some [x] => .ok (.strV (natToPyBase 16 (cl ("0x")) x))
    | _ => .error .typeErr
  else if name == cl ("oct") then
    match intLits vs with
    | some [x] => .ok (.strV (natToPyBase 8 (cl ("0o")) x))
    | _ => .error .typeErr
  else if name == cl ("hash") then
    .ok (.realV name)
  else .error .typeErr

mutual
/-- calc is `MathObj.calc` and its overrides.  A raw string left in the
token list has no `calc` method, so evaluating it raises
`AttributeError`; `MathObj.calc` returns `0`; `MathNum.calc` applies the
stored conversion to the stored value; `MathOp.calc` evaluates the two
operands and applies the operator callable; `MathFunc.calc` evaluates
every argument in `self.args` (always the genuine tuple: an arity failure
raises inside `__init__`, so no node with bad arity exists) and applies
the function. -/
def calcTok : Tok → Except PyErr PyVal
  | .str _ => .error .attrErr
  | .base => .ok (.intV 0)
  | .num conv lit => convApply conv lit
  | .opNode f v1 v2 => do
    let a ← calcTok v1
    let b ← calcTok v2
    applyOpFun f a b
  | .funcNode name args => do
    let vals ← calcList args
    applyFunc name vals

/-- calcList evaluates `(x.calc() for x in self.args)` left to right. -/
def calcList : List Tok → Except PyErr (List PyVal)
  | [] => .ok []
  | t :: ts => do
    let v ← calcTok t
    let vs ← calcList ts
    .ok (v :: vs)
end

/-- calculate is `MathParser.calculate`. -/
def calculate (t : Tok) : Except PyErr PyVal := calcTok t

/-- parseChars is `MathParser.parse` on the character list of the input:
tokenize, then calculate. -/
def parseChars (cs : List Char) : Except PyErr PyVal := do
  let t ← tokenize cs
  calculate t

/-- parse is `MathParser.parse`. -/
def parse (s : String) : Except PyErr PyVal := parseChars s.toList

/-- exceptDecEq makes concrete runs of the embedding checkable by
`decide`. -/
instance exceptDecEq {ε α : Type} [DecidableEq ε] [DecidableEq α] :
    DecidableEq (Except ε α) := fun x y =>
  match x, y with
  | .ok a, .ok b =>
    if h : a = b then .isTrue (by rw [h])
    else .isFalse (by intro hh; cases hh; exact h rfl)
  | .error e, .error f =>
    if h : e = f then .isTrue (by rw [h])
    else .isFalse (by intro hh; cases hh; exact h rfl)
  | .ok _, .error _ => .isFalse (by intro hh; cases hh)
  | .error _, .ok _ => .isFalse (by intro hh; cases hh)

/-- plainStream records that no token of the stream merges with its
predecessor and none is a constant name (`prev` is the raw predecessor of
the first token, as in `combineLoop`). -/
def plainStream : Option (List Char) → List (List Char) → Prop
  | _, [] => True
  | prev, t :: rest =>
    should_combine_tokens t prev = false ∧
      constKeys.contains t = false ∧ plainStream (some t) rest

/-! ### Lemmas and claim theorems -/

theorem dropWhile_length_le {p : Char → Bool} (l : List Char) :
    (l.dropWhile p).length ≤ l.length := by
  induction l with
  | nil => simp [List.dropWhile]
  | cons c cs ih =>
    by_cases h : p c
    · simp only [List.dropWhile, h]
      exact Nat.le_succ_of_le ih
    · simp [List.dropWhile, h]

theorem dropWhile_cons_length_lt {p : Char → Bool} {c : Char} {rest : List Char}
    (h : p c = true) :
    ((c :: rest).dropWhile p).length < (c :: rest).length := by
  simp only [List.dropWhile, h]
  exact Nat.lt_succ_of_le (dropWhile_length_le rest)

theorem tail_length_le (l : List Char) : l.tail.length ≤ l.length := by
  cases l <;> simp

/-- matchAt always consumes at least one character. -/
theorem matchAt_consumes {cs t r : List Char}
    (h : matchAt cs = some (t, r)) : r.length < cs.length := by
  match cs with
  | [] => simp [matchAt] at h
  | c :: rest =>
    simp only [matchAt] at h
    split at h
    · -- number alternatives
      rename_i hd
      have hdrop : ((c :: rest).dropWhile isDigitChar).length <
          (c :: rest).length := dropWhile_cons_length_lt hd
      split at h
      · split at h
        · simp only [Option.some.injEq, Prod.mk.injEq] at h
          obtain ⟨h1, h2⟩ := h
          subst h2
          exact hdrop
        · simp only [Option.some.injEq, Prod.mk.injEq] at h
          obtain ⟨h1, h2⟩ := h
          subst h2
          have ha := dropWhile_length_le (p := isDigitChar)
            ((c :: rest).dropWhile isDigitChar).tail
          have hb := tail_length_le ((c :: rest).dropWhile isDigitChar)
          omega
      · simp only [Option.some.injEq, Prod.mk.injEq] at h
        obtain ⟨h1, h2⟩ := h
        subst h2
        exact hdrop
    · split at h
      · -- `//` or `/`
        split at h <;>
          (simp only [Option.some.injEq, Prod.mk.injEq] at h
           obtain ⟨h1, h2⟩ := h
           subst h2)
        · have := tail_length_le rest
          simp only [List.length_cons]
          omega
        · simp
      · split at h
        · -- `**` or `*`
          split at h <;>
            (simp only [Option.some.injEq, Prod.mk.injEq] at h
             obtain ⟨h1, h2⟩ := h
             subst h2)
          · have := tail_length_le rest
            simp only [List.length_cons]
            omega
          · simp
        · split at h
          · -- `+`
            simp only [Option.some.injEq, Prod.mk.injEq] at h
            obtain ⟨h1, h2⟩ := h
            subst h2
            simp
          · split at h
            · -- `-`
              simp only [Option.some.injEq, Prod.mk.injEq] at h
              obtain ⟨h1, h2⟩ := h
              subst h2
              simp
            · split at h
              · -- `\w+`
                rename_i hw
                simp only [Option.some.injEq, Prod.mk.injEq] at h
                obtain ⟨h1, h2⟩ := h
                subst h2
                exact dropWhile_cons_length_lt hw
              · split at h
                · -- `(`
                  simp only [Option.some.injEq, Prod.mk.injEq] at h
                  obtain ⟨h1, h2⟩ := h
                  subst h2
                  simp
                · split at h
                  · -- `)`
                    simp only [Option.some.injEq, Prod.mk.injEq] at h
                    obtain ⟨h1, h2⟩ := h
                    subst h2
                    simp
                  · exact absurd h (by simp)

theorem findallF_matched {fuel : Nat} {cs t r : List Char}
    (h : matchAt cs = some (t, r)) :
    findallF (fuel + 1) cs = t :: findallF fuel r := by
  simp only [findallF, h]

theorem findallF_skipped {fuel : Nat} {cs : List Char}
    (h : matchAt cs = none) (hne : cs ≠ []) :
    findallF (fuel + 1) cs = findallF fuel cs.tail := by
  match cs, hne with
  | c :: rest, _ => simp only [findallF, h, List.tail_cons]

theorem findallF_fuel_congr (n : Nat) :
    ∀ (cs : List Char) (f1 f2 : Nat), cs.length ≤ n → cs.length ≤ f1 →
      cs.length ≤ f2 → findallF f1 cs = findallF f2 cs := by
  induction n with
  | zero =>
    intro cs f1 f2 hn _ _
    have : cs = [] := List.length_eq_zero.mp (Nat.le_zero.mp hn)
    subst this
    cases f1 <;> cases f2 <;> rfl
  | succ n ih =>
    intro cs f1 f2 hn h1 h2
    match cs with
    | [] => cases f1 <;> cases f2 <;> rfl
    | c :: rest =>
      obtain ⟨g1, rfl⟩ : ∃ k, f1 = k + 1 :=
        ⟨f1 - 1, by simp only [List.length_cons] at h1; omega⟩
      obtain ⟨g2, rfl⟩ : ∃ k, f2 = k + 1 :=
        ⟨f2 - 1, by simp only [List.length_cons] at h2; omega⟩
      simp only [List.length_cons] at hn h1 h2
      match hm : matchAt (c :: rest) with
      | some (t, r) =>
        rw [findallF_matched hm, findallF_matched hm]
        have hr := matchAt_consumes hm
        simp only [List.length_cons] at hr
        rw [ih r g1 g2 (by omega) (by omega) (by omega)]
      | none =>
        rw [findallF_skipped hm (by simp), findallF_skipped hm (by simp)]
        simp only [List.tail_cons]
        rw [ih rest g1 g2 (by omega) (by omega) (by omega)]

/-- findall unfolds by one successful match. -/
theorem findall_cons {cs t r : List Char} (h : matchAt cs = some (t, r)) :
    findall cs = t :: findall r := by
  have hl := matchAt_consumes h
  obtain ⟨m, hm⟩ : ∃ k, cs.length = k + 1 := ⟨cs.length - 1, by omega⟩
  unfold findall
  rw [hm, findallF_matched h]
  rw [findallF_fuel_congr r.length r m r.length (le_refl _) (by omega) (le_refl _)]

/-- findall skips one character when nothing matches. -/
theorem findall_skip {c : Char} {rest : List Char}
    (h : matchAt (c :: rest) = none) :
    findall (c :: rest) = findall rest := by
  unfold findall
  rw [List.length_cons, findallF_skipped h (by simp), List.tail_cons]

theorem takeWhile_all_append {p : Char → Bool} {A r : List Char}
    (hA : A.all p = true) (hr : ∀ c, r.head? = some c → p c = false) :
    (A ++ r).takeWhile p = A ∧ (A ++ r).dropWhile p = r := by
  induction A with
  | nil =>
    simp only [List.nil_append]
    cases r with
    | nil => simp
    | cons c rest =>
      have := hr c (by simp)
      simp [List.takeWhile, List.dropWhile, this]
  | cons a A2 ih =>
    simp only [List.all_cons, Bool.and_eq_true] at hA
    have ⟨ih1, ih2⟩ := ih hA.2
    simp [List.takeWhile, List.dropWhile, hA.1, ih1, ih2]

/-- matchAt on a digit literal followed by a boundary that is neither a
digit nor a decimal point. -/
theorem matchAt_digits {A r : List Char} (hne : A ≠ [])
    (hd : A.all isDigitChar = true)
    (hr : ∀ c, r.head? = some c → isDigitChar c = false)
    (hdot : r.head? ≠ some '.') :
    matchAt (A ++ r) = some (A, r) := by
  match A, hne with
  | a :: A2, _ =>
    simp only [List.all_cons, Bool.and_eq_true] at hd
    have ⟨ht, hdp⟩ := takeWhile_all_append (p := isDigitChar)
      (A := a :: A2) (r := r) (by simp [hd.1, hd.2]) hr
    simp only [List.cons_append] at ht hdp
    simp only [matchAt, hd.1, if_true, List.cons_append]
    rw [ht, hdp]
    simp [hdot]

/-- wordCharNotSpecial: a `\w` character is none of the single-character
operator or parenthesis symbols. -/
theorem wordCharNotSpecial {c : Char} (h : isWordChar c = true) :
    c ≠ '/' ∧ c ≠ '*' ∧ c ≠ '+' ∧ c ≠ '-' ∧ c ≠ '(' ∧ c ≠ ')' := by
  refine ⟨?_, ?_, ?_, ?_, ?_, ?_⟩ <;> (intro he; subst he; revert h; decide)

/-- matchAt on a word literal (first character not a digit) followed by a
boundary that is not a word character. -/
theorem matchAt_word {w r : List Char} (hne : w ≠ [])
    (hw : w.all isWordChar = true)
    (hhd : ∀ c, w.head? = some c → isDigitChar c = false)
    (hr : ∀ c, r.head? = some c → isWordChar c = false) :
    matchAt (w ++ r) = some (w, r) := by
  match w, hne with
  | a :: w2, _ =>
    simp only [List.all_cons, Bool.and_eq_true] at hw
    have ha := hhd a (by simp)
    have ⟨hs1, hs2, hs3, hs4, hs5, hs6⟩ := wordCharNotSpecial hw.1
    have ⟨ht, hdp⟩ := takeWhile_all_append (p := isWordChar)
      (A := a :: w2) (r := r) (by simp [hw.1, hw.2]) hr
    simp only [List.cons_append] at ht hdp
    simp only [matchAt, ha, hs1, hs2, hs3, hs4, hs5, hs6, hw.1,
      if_false, if_true, List.cons_append, Bool.false_eq_true]
    rw [ht, hdp]

theorem matchAt_space (r : List Char) : matchAt (' ' :: r) = none := rfl

theorem matchAt_plus (r : List Char) : matchAt ('+' :: r) = some (['+'], r) := rfl

theorem matchAt_minus (r : List Char) : matchAt ('-' :: r) = some (['-'], r) := rfl

theorem matchAt_lpar (r : List Char) : matchAt ('(' :: r) = some (['('], r) := rfl

theorem matchAt_rpar (r : List Char) : matchAt (')' :: r) = some ([')'], r) := rfl

theorem matchAt_star_space (r : List Char) :
    matchAt ('*' :: ' ' :: r) = some (['*'], ' ' :: r) := rfl

theorem matchAt_slash_space (r : List Char) :
    matchAt ('/' :: ' ' :: r) = some (['/'], ' ' :: r) := rfl

theorem matchAt_starstar (r : List Char) :
    matchAt ('*' :: '*' :: r) = some (['*', '*'], r) := rfl

theorem matchAt_slashslash (r : List Char) :
    matchAt ('/' :: '/' :: r) = some (['/', '/'], r) := rfl

/-- findall steps over a digit literal. -/
theorem findall_digits {A r : List Char} (hne : A ≠ [])
    (hd : A.all isDigitChar = true)
    (hr : ∀ c, r.head? = some c → isDigitChar c = false)
    (hdot : r.head? ≠ some '.') :
    findall (A ++ r) = A :: findall r :=
  findall_cons (matchAt_digits hne hd hr hdot)

/-- findall on a bare digit literal. -/
theorem findall_digits_nil {A : List Char} (hne : A ≠ [])
    (hd : A.all isDigitChar = true) :
    findall A = [A] := by
  have := findall_digits (r := []) hne hd (by intro c hc; cases hc) (by simp)
  simpa using this

/-- findall skips a space. -/
theorem findall_space (r : List Char) : findall (' ' :: r) = findall r :=
  findall_skip (matchAt_space r)

theorem digit_ne_minus {A : List Char} (hd : A.all isDigitChar = true) :
    (A == ['-']) = false := by
  cases hbe : A == ['-']
  · rfl
  · have : A = ['-'] := by simpa using hbe
    subst this
    exact absurd hd (by decide)

theorem mem_of_contains {A : List Char} {L : List (List Char)}
    (h : L.contains A = true) : A ∈ L := by
  simpa using h

theorem digit_not_const {A : List Char} (hd : A.all isDigitChar = true) :
    constKeys.contains A = false := by
  cases hc : constKeys.contains A
  · rfl
  · exfalso
    have hm := mem_of_contains hc
    simp only [constKeys, constants, cl, List.map_cons, List.map_nil,
      List.mem_cons, List.not_mem_nil, or_false] at hm
    rcases hm with h | h | h | h | h <;> (subst h; exact absurd hd (by decide))

theorem digit_not_op {A : List Char} (hd : A.all isDigitChar = true) :
    opKeys.contains A = false := by
  cases hc : opKeys.contains A
  · rfl
  · exfalso
    have hm := mem_of_contains hc
    simp only [opKeys, operators, cl, List.map_cons, List.map_nil,
      List.mem_cons, List.not_mem_nil, or_false] at hm
    rcases hm with h | h | h | h | h | h | h | h | h | h | h | h | h <;>
      (subst h; exact absurd hd (by decide))

theorem digit_not_func {A : List Char} (hne : A ≠ [])
    (hd : A.all isDigitChar = true) :
    funcKeys.contains A = false := by
  cases hc : funcKeys.contains A
  · rfl
  · exfalso
    have hm := mem_of_contains hc
    simp only [funcKeys, funcs, cl, List.map_cons, List.map_nil,
      List.mem_cons, List.not_mem_nil, or_false] at hm
    rcases hm with h | h | h | h | h | h | h | h | h | h | h | h | h | h |
      h | h | h | h | h | h | h | h | h | h | h | h | h <;>
      (subst h; exact absurd hd (by decide))

theorem digit_is_number {A : List Char} (hne : A ≠ [])
    (hd : A.all isDigitChar = true) : is_number A = true := by
  simp [is_number, hne, hd]

theorem digit_no_dot {A : List Char} (hd : A.all isDigitChar = true) :
    ('.' : Char) ∉ A := fun hm =>
  absurd (List.all_eq_true.mp hd _ hm) (by decide)

theorem neg_digit_is_number {A : List Char} (hne : A ≠ [])
    (hd : A.all isDigitChar = true) : is_number ('-' :: A) = true := by
  have h1 : ('-' :: A).all isDigitChar = false := by
    simp [List.all_cons]
    intro hcontra
    exact absurd hcontra (by decide)
  simp only [is_number, regexNum, List.head?_cons, List.tail_cons]
  have ⟨ht, hdp⟩ := takeWhile_all_append (p := isDigitChar) (A := A) (r := [])
    hd (by intro c hc; cases hc)
  simp only [List.append_nil] at ht hdp
  simp [ht, hdp, hne]

theorem combineLoop_cons_plain {t : List Char} {rest : List (List Char)}
    {prev : Option (List Char)}
    (h1 : should_combine_tokens t prev = false)
    (h2 : constKeys.contains t = false) :
    combineLoop prev (t :: rest) =
      Except.map (fun xs => Tok.str t :: xs) (combineLoop (some t) rest) := by
  cases rest with
  | nil =>
    have h2m : t ∉ constKeys := by simpa using h2
    have h2p : ¬ (constKeys.contains t = true) := fun hc => h2m (by simpa using hc)
    simp only [combineLoop, h1, Bool.false_eq_true, if_false]
    rw [if_neg h2p]
    rfl
  | cons nxt rest2 =>
    simp only [combineLoop, h1, h2, Bool.false_eq_true, if_false]
    cases combineLoop (some nxt) rest2 <;> rfl

theorem combineLoop_cons_merge {t nxt : List Char} {rest : List (List Char)}
    {prev : Option (List Char)}
    (h1 : should_combine_tokens t prev = true) :
    combineLoop prev (t :: nxt :: rest) =
      Except.map (fun xs => Tok.str (t ++ nxt) :: xs)
        (combineLoop (some nxt) rest) := by
  simp only [combineLoop, h1, if_true]
  cases combineLoop (some nxt) rest <;> rfl

theorem combineLoop_plain {raw : List (List Char)} :
    ∀ {prev : Option (List Char)},
    (∀ t ∈ raw, (t == ['-']) = false ∧ constKeys.contains t = false) →
    combineLoop prev raw = .ok (raw.map .str) := by
  induction raw with
  | nil => intro prev _; rfl
  | cons t rest ih =>
    intro prev h
    have ⟨h1, h2⟩ := h t (by simp)
    have hstep : combineLoop prev (t :: rest) =
        Except.map (fun xs => Tok.str t :: xs) (combineLoop (some t) rest) :=
      combineLoop_cons_plain (by simp [should_combine_tokens, h1]) h2
    rw [hstep, ih (fun u hu => h u (by simp [hu]))]
    rfl

/-- should_combine_tokens is false for any token with a digit-string
predecessor. -/
theorem should_combine_after_digit {t A : List Char}
    (hd : A.all isDigitChar = true) :
    should_combine_tokens t (some A) = false := by
  simp only [should_combine_tokens, Option.isNone_some, Option.any_some,
    Bool.false_or]
  rw [digit_not_op hd]
  simp

theorem numConvert_digit {A : List Char} (hne : A ≠ [])
    (hd : A.all isDigitChar = true) :
    numConvert (.str A) = .ok (.num .toIntC (.ofStr A)) := by
  simp [numConvert, digit_is_number hne hd, mkMathNum, digit_no_dot hd]

theorem numConvert_neg_digit {A : List Char} (hne : A ≠ [])
    (hd : A.all isDigitChar = true) :
    numConvert (.str ('-' :: A)) = .ok (.num .toIntC (.ofStr ('-' :: A))) := by
  have hdot : ('.' : Char) ∉ ('-' :: A) := by
    intro hm
    rcases List.mem_cons.mp hm with h | h
    · exact absurd h (by decide)
    · exact digit_no_dot hd h
  simp [numConvert, neg_digit_is_number hne hd, mkMathNum, hdot]

theorem word_not_number {w : List Char} (hw : w.all isWordChar = true)
    (hhd : ∀ c, w.head? = some c → isDigitChar c = false)
    (hne : w ≠ []) : is_number w = false := by
  match w, hne with
  | c :: w2, _ =>
    simp only [List.all_cons, Bool.and_eq_true] at hw
    have hcd := hhd c (by simp)
    have hcm : c ≠ '-' := by
      intro he
      subst he
      exact absurd hw.1 (by decide)
    have halld : (c :: w2).all isDigitChar = false := by
      simp [List.all_cons, hcd]
    simp only [is_number, regexNum, halld, Bool.and_false, Bool.false_and,
      Bool.false_or, List.head?_cons]
    simp only [Option.some.injEq, hcm, if_false]
    simp [List.takeWhile, hcd]

theorem pyIntOfString_digits {A : List Char} (hne : A ≠ [])
    (hd : A.all isDigitChar = true) :
    pyIntOfString A = .ok ((digitsToNat A : Int)) := by
  match A, hne with
  | c :: A2, _ =>
    simp only [List.all_cons, Bool.and_eq_true] at hd
    have hcm : c ≠ '-' := by
      intro he
      subst he
      exact absurd hd.1 (by decide)
    simp only [pyIntOfString, List.head?_cons]
    rw [if_neg (by simp [hcm])]
    rw [if_pos (by simp [hd.1, hd.2])]

theorem pyIntOfString_neg_digits {A : List Char} (hne : A ≠ [])
    (hd : A.all isDigitChar = true) :
    pyIntOfString ('-' :: A) = .ok (-(digitsToNat A : Int)) := by
  simp only [pyIntOfString, List.head?_cons, List.tail_cons,
    Option.some.injEq, if_true]
  rw [if_pos (by simp [hne, hd])]

theorem calcTok_digit {A : List Char} (hne : A ≠ [])
    (hd : A.all isDigitChar = true) :
    calcTok (.num .toIntC (.ofStr A)) = .ok (.intV (digitsToNat A)) := by
  simp [calcTok, convApply, pyIntOfString_digits hne hd, Except.map]

theorem calcTok_neg_digit {A : List Char} (hne : A ≠ [])
    (hd : A.all isDigitChar = true) :
    calcTok (.num .toIntC (.ofStr ('-' :: A))) =
      .ok (.intV (-(digitsToNat A : Int))) := by
  simp [calcTok, convApply, pyIntOfString_neg_digits hne hd, Except.map]

theorem calcTok_opNode {f : OpFun} {t1 t2 : Tok} {a b : PyVal}
    (h1 : calcTok t1 = .ok a) (h2 : calcTok t2 = .ok b) :
    calcTok (.opNode f t1 t2) = applyOpFun f a b := by
  show (do
    let a ← calcTok t1
    let b ← calcTok t2
    applyOpFun f a b) = applyOpFun f a b
  rw [h1, h2]
  rfl

theorem all_ne_of_exists_not {p : Char → Bool} {w s : List Char}
    (hw : w.all p = true) (hs : ¬ s.all p = true) : (w == s) = false := by
  cases hbe : w == s
  · rfl
  · have : w = s := by simpa using hbe
    subst this
    exact absurd hw hs

theorem word_ne_minus {w : List Char} (hw : w.all isWordChar = true) :
    (w == ['-']) = false :=
  all_ne_of_exists_not hw (by decide)

theorem numConvert_word {w : List Char} (hw : w.all isWordChar = true)
    (hhd : ∀ c, w.head? = some c → isDigitChar c = false)
    (hne : w ≠ []) : numConvert (.str w) = .ok (.str w) := by
  simp [numConvert, word_not_number hw hhd hne]

theorem foldOp_none {op : List Char} {f : OpFun} {ts : List Tok}
    (h : idxOfStr ts op = none) : foldOp op f ts = .ok ts := by
  unfold foldOp
  cases ts.length <;> simp [foldOpF, h]

theorem foldAll_none {ts : List Tok}
    (h : ∀ p ∈ operators, idxOfStr ts p.1 = none) : foldAll ts = .ok ts := by
  unfold foldAll
  have main : ∀ (L : List (List Char × OpFun)),
      (∀ p ∈ L, idxOfStr ts p.1 = none) →
      List.foldlM (fun acc p => foldOp p.1 p.2 acc) ts L = .ok ts := by
    intro L
    induction L with
    | nil => intro _; rfl
    | cons q L2 ih =>
      intro hL
      rw [List.foldlM_cons, foldOp_none (hL q (by simp))]
      exact ih (fun p hp => hL p (by simp [hp]))
  exact main operators h

theorem parenLoopF_no_lparen {ts : List Tok}
    (h : hasStr ts (cl ("(")) = false) :
    ∀ fuel, parenLoopF fuel ts = .ok ts := by
  intro fuel
  cases fuel <;> simp [parenLoopF, h]

theorem finalLoopF_fixed {ts : List Tok} (h : foldAll ts = .ok ts) :
    ∀ fuel, finalLoopF fuel ts = .ok ts := by
  intro fuel
  induction fuel with
  | zero => rfl
  | succ n ih =>
    simp only [finalLoopF]
    by_cases hl : ts.length > 1
    · simp only [hl, if_true, finalFoldPass, h, mapIdxToSyn]
      exact ih
    · simp [hl]

/-- C1: multiplication is applied before addition in `a + b * c`, because
the final fold processes `*` (table position 4) before `+` (table
position 6); for all decimal integer literals the parse returns
`a + b * c` exactly. -/
theorem c1_mul_before_add (A B C : List Char)
    (hA : A ≠ []) (hdA : A.all isDigitChar = true)
    (hB : B ≠ []) (hdB : B.all isDigitChar = true)
    (hC : C ≠ []) (hdC : C.all isDigitChar = true) :
    parseChars (A ++ ' ' :: '+' :: ' ' :: (B ++ ' ' :: '*' :: ' ' :: C)) =
      .ok (.intV ((digitsToNat A : Int) +
        (digitsToNat B : Int) * (digitsToNat C : Int))) := by
  have h_raw : findall (A ++ ' ' :: '+' :: ' ' :: (B ++ ' ' :: '*' :: ' ' :: C))
      = [A, ['+'], B, ['*'], C] := by
    rw [findall_digits hA hdA (fun c hc => by cases hc; decide)
      (by intro h; simp at h)]
    rw [findall_space, findall_cons (matchAt_plus _), findall_space]
    rw [findall_digits hB hdB (fun c hc => by cases hc; decide)
      (by intro h; simp at h)]
    rw [findall_space, findall_cons (matchAt_star_space _), findall_space]
    rw [findall_digits_nil hC hdC]
  have hcond : ∀ t ∈ [A, ['+'], B, ['*'], C],
      (t == ['-']) = false ∧ constKeys.contains t = false := by
    intro t ht
    simp only [List.mem_cons, List.not_mem_nil, or_false] at ht
    rcases ht with rfl | rfl | rfl | rfl | rfl
    · exact ⟨digit_ne_minus hdA, digit_not_const hdA⟩
    · exact ⟨by decide, by decide⟩
    · exact ⟨digit_ne_minus hdB, digit_not_const hdB⟩
    · exact ⟨by decide, by decide⟩
    · exact ⟨digit_ne_minus hdC, digit_not_const hdC⟩
  have h_comb : combineLoop none [A, ['+'], B, ['*'], C] =
      .ok [.str A, .str ['+'], .str B, .str ['*'], .str C] := by
    rw [combineLoop_plain hcond]
    rfl
  have h_map : List.mapM numConvert
      [Tok.str A, .str ['+'], .str B, .str ['*'], .str C] =
      .ok [.num .toIntC (.ofStr A), .str ['+'], .num .toIntC (.ofStr B),
        .str ['*'], .num .toIntC (.ofStr C)] := by
    simp only [List.mapM_cons, List.mapM_nil, numConvert_digit hA hdA,
      numConvert_digit hB hdB, numConvert_digit hC hdC]
    rfl
  have h_lex : lex (A ++ ' ' :: '+' :: ' ' :: (B ++ ' ' :: '*' :: ' ' :: C)) =
      .ok [.num .toIntC (.ofStr A), .str ['+'], .num .toIntC (.ofStr B),
        .str ['*'], .num .toIntC (.ofStr C)] := by
    unfold lex
    rw [h_raw, h_comb]
    exact h_map
  have h_tok : tokenize (A ++ ' ' :: '+' :: ' ' :: (B ++ ' ' :: '*' :: ' ' :: C)) =
      .ok (.opNode .addF (.num .toIntC (.ofStr A))
        (.opNode .mulF (.num .toIntC (.ofStr B)) (.num .toIntC (.ofStr C)))) := by
    unfold tokenize
    rw [h_lex]
    rfl
  have hinner : calcTok (.opNode .mulF (.num .toIntC (.ofStr B))
      (.num .toIntC (.ofStr C))) =
      .ok (.intV ((digitsToNat B : Int) * (digitsToNat C : Int))) := by
    rw [calcTok_opNode (calcTok_digit hB hdB) (calcTok_digit hC hdC)]
    rfl
  have houter : calcTok (.opNode .addF (.num .toIntC (.ofStr A))
      (.opNode .mulF (.num .toIntC (.ofStr B)) (.num .toIntC (.ofStr C)))) =
      .ok (.intV ((digitsToNat A : Int) +
        (digitsToNat B : Int) * (digitsToNat C : Int))) := by
    rw [calcTok_opNode (calcTok_digit hA hdA) hinner]
    rfl
  unfold parseChars
  rw [h_tok]
  exact houter

/-- C1 witness: `parse "2 + 3 * 4"` is `14`, not `20`. -/
theorem c1_witness :
    parse ("2 + 3 * 4") = .ok (.intV 14) ∧ ((14 : Int) ≠ 20) := by
  constructor
  · have := c1_mul_before_add ['2'] ['3'] ['4'] (by decide) (by decide)
      (by decide) (by decide) (by decide) (by decide)
    exact this
  · decide

/-- C2: division (and floor division) by a literal zero raises
`ZeroDivisionError` instead of returning the NaN sentinel.  The guard in
`MathOp.__init__` compares the operand *node* against the int `0`
(`value2 == 0`), which is always false for a `MathObj`, so `ret_nan` is
never installed and the division fault propagates. -/
theorem c2_div_by_zero_raises :
    parse ("1 / 0") = .error .zeroDivErr ∧
    parse ("1 // 0") = .error .zeroDivErr :=
  ⟨by decide, by decide⟩

/-- C3: an arity violation raises no `ArityError` — no such exception
exists anywhere in the code.  `MathFunc.__init__` tries to build an
`ArgumentError("", message=...)` to store as a value, and that
construction itself raises `AttributeError` (argparse reads
`"".option_strings`), so `parse("gcd(5)")` fails at tree-build time,
inside `tokenize`, with `AttributeError`. -/
theorem c3_gcd_arity_attr_error_at_build :
    tokenize (cl ("gcd(5)")) = .error .attrErr ∧
    parse ("gcd(5)") = .error .attrErr :=
  ⟨rfl, by decide⟩

/-- C4 counterexample: `foo(1)` raises `AttributeError` — the leftover raw
string token `"foo"` has no `calc` method — and not the claimed
unknown-function error (the `ValueError` branch of `MathFunc.__init__`,
which `parse` never reaches for names absent from the table). -/
theorem c4_counterexample :
    parse ("foo(1)") = .error .attrErr ∧ PyErr.attrErr ≠ PyErr.valueErr :=
  ⟨by decide, by decide⟩

/-- C5 counterexample: two adjacent numbers never collapse to one token,
yet `parse` does not raise `SyntaxError`: after the bounded fold passes it
returns the value of the *first* token. -/
theorem c5_counterexample :
    parse ("2 3") = .ok (.intV 2) :=
  by decide

/-- C5 amended: a token sequence of two adjacent number literals, which no
fold pass can reduce, makes `parse` return the first literal's value
rather than fail. -/
theorem c5_unreduced_returns_first (A B : List Char)
    (hA : A ≠ []) (hdA : A.all isDigitChar = true)
    (hB : B ≠ []) (hdB : B.all isDigitChar = true) :
    parseChars (A ++ ' ' :: B) = .ok (.intV (digitsToNat A)) := by
  have h_raw : findall (A ++ ' ' :: B) = [A, B] := by
    rw [findall_digits hA hdA (fun c hc => by cases hc; decide)
      (by intro h; simp at h)]
    rw [findall_space, findall_digits_nil hB hdB]
  have hcond : ∀ t ∈ [A, B],
      (t == ['-']) = false ∧ constKeys.contains t = false := by
    intro t ht
    simp only [List.mem_cons, List.not_mem_nil, or_false] at ht
    rcases ht with rfl | rfl
    · exact ⟨digit_ne_minus hdA, digit_not_const hdA⟩
    · exact ⟨digit_ne_minus hdB, digit_not_const hdB⟩
  have h_comb : combineLoop none [A, B] = .ok [.str A, .str B] := by
    rw [combineLoop_plain hcond]
    rfl
  have h_map : List.mapM numConvert [Tok.str A, .str B] =
      .ok [.num .toIntC (.ofStr A), .num .toIntC (.ofStr B)] := by
    simp only [List.mapM_cons, List.mapM_nil, numConvert_digit hA hdA,
      numConvert_digit hB hdB]
    rfl
  have h_lex : lex (A ++ ' ' :: B) =
      .ok [.num .toIntC (.ofStr A), .num .toIntC (.ofStr B)] := by
    unfold lex
    rw [h_raw, h_comb]
    exact h_map
  have h_tok : tokenize (A ++ ' ' :: B) = .ok (.num .toIntC (.ofStr A)) := by
    unfold tokenize
    rw [h_lex]
    rfl
  unfold parseChars
  rw [h_tok]
  exact calcTok_digit hA hdA

/-- C5 witness: `parse "12 34"` silently returns `12`. -/
theorem c5_witness : parse ("12 34") = .ok (.intV 12) := by
  have := c5_unreduced_returns_first ['1', '2'] ['3', '4'] (by decide)
    (by decide) (by decide) (by decide)
  exact this

/-- C7 counterexample: a unary minus before a parenthesized group merges
with the `(` character into the junk token `"-("`, so `parse "-(2+3)"`
raises `AttributeError` instead of returning `-5`. -/
theorem c7_counterexample :
    parse ("-(2+3)") = .error .attrErr ∧
    parse ("-(2+3)") ≠ .ok (.intV (-5)) :=
  ⟨by decide, by decide⟩

/-- C7 amended: a leading minus merges with a number literal and negation
then behaves as claimed (`-a + b` evaluates to `b - a`, in particular
`parse "-5 + 3" = -2`), but a minus directly before `(` merges with the
parenthesis itself and `parse "-(X)"` raises `AttributeError` instead of
negating the group. -/
theorem c7_unary_minus_number_only (A B : List Char)
    (hA : A ≠ []) (hdA : A.all isDigitChar = true)
    (hB : B ≠ []) (hdB : B.all isDigitChar = true) :
    parseChars ('-' :: (A ++ ' ' :: '+' :: ' ' :: B)) =
      .ok (.intV (-(digitsToNat A : Int) + (digitsToNat B : Int))) := by
  have h_raw : findall ('-' :: (A ++ ' ' :: '+' :: ' ' :: B)) =
      [['-'], A, ['+'], B] := by
    rw [findall_cons (matchAt_minus _)]
    rw [findall_digits hA hdA (fun c hc => by cases hc; decide)
      (by intro h; simp at h)]
    rw [findall_space, findall_cons (matchAt_plus _), findall_space]
    rw [findall_digits_nil hB hdB]
  have hcond : ∀ t ∈ [['+'], B],
      (t == ['-']) = false ∧ constKeys.contains t = false := by
    intro t ht
    simp only [List.mem_cons, List.not_mem_nil, or_false] at ht
    rcases ht with rfl | rfl
    · exact ⟨by decide, by decide⟩
    · exact ⟨digit_ne_minus hdB, digit_not_const hdB⟩
  have h_comb : combineLoop none [['-'], A, ['+'], B] =
      .ok [.str ('-' :: A), .str ['+'], .str B] := by
    rw [combineLoop_cons_merge (by decide)]
    rw [combineLoop_plain hcond]
    rfl
  have h_map : List.mapM numConvert [Tok.str ('-' :: A), .str ['+'], .str B] =
      .ok [.num .toIntC (.ofStr ('-' :: A)), .str ['+'],
        .num .toIntC (.ofStr B)] := by
    simp only [List.mapM_cons, List.mapM_nil, numConvert_neg_digit hA hdA,
      numConvert_digit hB hdB]
    rfl
  have h_lex : lex ('-' :: (A ++ ' ' :: '+' :: ' ' :: B)) =
      .ok [.num .toIntC (.ofStr ('-' :: A)), .str ['+'],
        .num .toIntC (.ofStr B)] := by
    unfold lex
    rw [h_raw, h_comb]
    exact h_map
  have h_tok : tokenize ('-' :: (A ++ ' ' :: '+' :: ' ' :: B)) =
      .ok (.opNode .addF (.num .toIntC (.ofStr ('-' :: A)))
        (.num .toIntC (.ofStr B))) := by
    unfold tokenize
    rw [h_lex]
    rfl
  have hcalc : calcTok (.opNode .addF (.num .toIntC (.ofStr ('-' :: A)))
      (.num .toIntC (.ofStr B))) =
      .ok (.intV (-(digitsToNat A : Int) + (digitsToNat B : Int))) := by
    rw [calcTok_opNode (calcTok_neg_digit hA hdA) (calcTok_digit hB hdB)]
    rfl
  unfold parseChars
  rw [h_tok]
  exact hcalc

/-- C7 witness: `parse "-5 + 3"` is `-2`. -/
theorem c7_witness : parse ("-5 + 3") = .ok (.intV (-2)) := by
  have := c7_unary_minus_number_only ['5'] ['3'] (by decide) (by decide)
    (by decide) (by decide)
  exact this

/-- C8: `**` works (`2 ** 3` is `8`) but `%` is absent from the lexer
pattern, so the token is silently dropped: `parse "10 % 3"` returns `10`,
not `1` — the `%` entry of the operator table is unreachable from
`parse`. -/
theorem c8_modulo_dropped_by_lexer :
    parse ("2 ** 3") = .ok (.intV 8) ∧
    parse ("10 % 3") = .ok (.intV 10) ∧
    parse ("10 % 3") ≠ .ok (.intV 1) :=
  ⟨by decide, by decide, by decide⟩

/-- C9: the comparison symbols are absent from the lexer pattern, so they
are silently dropped: `parse "2 < 1"` returns `2` (the first literal),
not the claimed false-comparison value `0` and not a boolean — the
comparison entries of the operator table are unreachable from `parse`. -/
theorem c9_comparisons_dropped_by_lexer :
    parse ("2 < 1") = .ok (.intV 2) ∧
    parse ("2 < 1") ≠ .ok (.intV 0) ∧
    parse ("2 < 1") ≠ .ok (.boolV false) :=
  ⟨by decide, by decide, by decide⟩

/-- C10 counterexample: grouping is not transparent for a negated literal:
`parse "(-5)"` returns `0` while `parse "-5"` returns `-5`.  Inside the
parentheses the `-` stays a binary operator (its predecessor `(` is not an
operator symbol), the fold wraps around to use the `5` twice and then
deletes both tokens, leaving an empty list that evaluates to `0`. -/
theorem c10_counterexample :
    parse ("(-5)") = .ok (.intV 0) ∧
    parse ("-5") = .ok (.intV (-5)) ∧
    parse ("(-5)") ≠ parse ("-5") :=
  ⟨by decide, by decide, by decide⟩

theorem combineLoop_plainStream :
    ∀ {raw : List (List Char)} {prev : Option (List Char)},
    plainStream prev raw → combineLoop prev raw = .ok (raw.map .str) := by
  intro raw
  induction raw with
  | nil => intro prev _; rfl
  | cons t rest ih =>
    intro prev h
    obtain ⟨h1, h2, h3⟩ := h
    rw [combineLoop_cons_plain h1 h2, ih h3]
    rfl

theorem c10_case_plus (A B : List Char)
    (hA : A ≠ []) (hdA : A.all isDigitChar = true)
    (hB : B ≠ []) (hdB : B.all isDigitChar = true) :
    parseChars ('(' :: (A ++ ' ' :: '+' :: ' ' :: (B ++ [')']))) =
      parseChars (A ++ ' ' :: '+' :: ' ' :: B) := by
  have h_rawL : findall ('(' :: (A ++ ' ' :: '+' :: ' ' :: (B ++ [')']))) =
      [['('], A, ['+'], B, [')']] := by
    rw [findall_cons (matchAt_lpar _)]
    rw [findall_digits hA hdA (fun c hc => by cases hc; decide)
      (by intro h; simp at h)]
    rw [findall_space, findall_cons (matchAt_plus _), findall_space]
    rw [findall_digits hB hdB (fun c hc => by cases hc; decide)
      (by intro h; simp at h)]
    rw [findall_cons (matchAt_rpar _)]
    rfl
  have h_rawR : findall (A ++ ' ' :: '+' :: ' ' :: B) = [A, ['+'], B] := by
    rw [findall_digits hA hdA (fun c hc => by cases hc; decide)
      (by intro h; simp at h)]
    rw [findall_space, findall_cons (matchAt_plus _), findall_space]
    rw [findall_digits_nil hB hdB]
  have hm : should_combine_tokens ['+'] (some A) = false := rfl
  have hsA : should_combine_tokens A (some ['(']) = false := by
    simp [should_combine_tokens, digit_ne_minus hdA]
  have hsA2 : should_combine_tokens A none = false := by
    simp [should_combine_tokens, digit_ne_minus hdA]
  have hsB : should_combine_tokens B (some ['+']) = false := by
    simp [should_combine_tokens, digit_ne_minus hdB]
  have hplL : plainStream none [['('], A, ['+'], B, [')']] := by
    exact ⟨rfl, by decide, hsA, digit_not_const hdA,
      hm, by decide, hsB, digit_not_const hdB, rfl, by decide, trivial⟩
  have hplR : plainStream none [A, ['+'], B] := by
    exact ⟨hsA2, digit_not_const hdA, hm, by decide,
      hsB, digit_not_const hdB, trivial⟩
  have h_combL : combineLoop none [['('], A, ['+'], B, [')']] =
      .ok [.str ['('], .str A, .str ['+'], .str B, .str [')']] := by
    rw [combineLoop_plainStream hplL]
    rfl
  have h_combR : combineLoop none [A, ['+'], B] =
      .ok [.str A, .str ['+'], .str B] := by
    rw [combineLoop_plainStream hplR]
    rfl
  have h_mapL : List.mapM numConvert
      [Tok.str ['('], .str A, .str ['+'], .str B, .str [')']] =
      .ok [.str ['('], .num .toIntC (.ofStr A), .str ['+'],
        .num .toIntC (.ofStr B), .str [')']] := by
    simp only [List.mapM_cons, List.mapM_nil, numConvert_digit hA hdA,
      numConvert_digit hB hdB]
    rfl
  have h_mapR : List.mapM numConvert [Tok.str A, .str ['+'], .str B] =
      .ok [.num .toIntC (.ofStr A), .str ['+'], .num .toIntC (.ofStr B)] := by
    simp only [List.mapM_cons, List.mapM_nil, numConvert_digit hA hdA,
      numConvert_digit hB hdB]
    rfl
  have h_lexL : lex ('(' :: (A ++ ' ' :: '+' :: ' ' :: (B ++ [')']))) =
      .ok [.str ['('], .num .toIntC (.ofStr A), .str ['+'],
        .num .toIntC (.ofStr B), .str [')']] := by
    unfold lex
    rw [h_rawL, h_combL]
    exact h_mapL
  have h_lexR : lex (A ++ ' ' :: '+' :: ' ' :: B) =
      .ok [.num .toIntC (.ofStr A), .str ['+'], .num .toIntC (.ofStr B)] := by
    unfold lex
    rw [h_rawR, h_combR]
    exact h_mapR
  have h_tokEq : tokenize ('(' :: (A ++ ' ' :: '+' :: ' ' :: (B ++ [')']))) =
      tokenize (A ++ ' ' :: '+' :: ' ' :: B) := by
    unfold tokenize
    rw [h_lexL, h_lexR]
    rfl
  unfold parseChars
  rw [h_tokEq]

theorem c10_case_minus (A B : List Char)
    (hA : A ≠ []) (hdA : A.all isDigitChar = true)
    (hB : B ≠ []) (hdB : B.all isDigitChar = true) :
    parseChars ('(' :: (A ++ ' ' :: '-' :: ' ' :: (B ++ [')']))) =
      parseChars (A ++ ' ' :: '-' :: ' ' :: B) := by
  have h_rawL : findall ('(' :: (A ++ ' ' :: '-' :: ' ' :: (B ++ [')']))) =
      [['('], A, ['-'], B, [')']] := by
    rw [findall_cons (matchAt_lpar _)]
    rw [findall_digits hA hdA (fun c hc => by cases hc; decide)
      (by intro h; simp at h)]
    rw [findall_space, findall_cons (matchAt_minus _), findall_space]
    rw [findall_digits hB hdB (fun c hc => by cases hc; decide)
      (by intro h; simp at h)]
    rw [findall_cons (matchAt_rpar _)]
    rfl
  have h_rawR : findall (A ++ ' ' :: '-' :: ' ' :: B) = [A, ['-'], B] := by
    rw [findall_digits hA hdA (fun c hc => by cases hc; decide)
      (by intro h; simp at h)]
    rw [findall_space, findall_cons (matchAt_minus _), findall_space]
    rw [findall_digits_nil hB hdB]
  have hm : should_combine_tokens ['-'] (some A) = false :=
    should_combine_after_digit hdA
  have hsA : should_combine_tokens A (some ['(']) = false := by
    simp [should_combine_tokens, digit_ne_minus hdA]
  have hsA2 : should_combine_tokens A none = false := by
    simp [should_combine_tokens, digit_ne_minus hdA]
  have hsB : should_combine_tokens B (some ['-']) = false := by
    simp [should_combine_tokens, digit_ne_minus hdB]
  have hplL : plainStream none [['('], A, ['-'], B, [')']] := by
    exact ⟨rfl, by decide, hsA, digit_not_const hdA,
      hm, by decide, hsB, digit_not_const hdB, rfl, by decide, trivial⟩
  have hplR : plainStream none [A, ['-'], B] := by
    exact ⟨hsA2, digit_not_const hdA, hm, by decide,
      hsB, digit_not_const hdB, trivial⟩
  have h_combL : combineLoop none [['('], A, ['-'], B, [')']] =
      .ok [.str ['('], .str A, .str ['-'], .str B, .str [')']] := by
    rw [combineLoop_plainStream hplL]
    rfl
  have h_combR : combineLoop none [A, ['-'], B] =
      .ok [.str A, .str ['-'], .str B] := by
    rw [combineLoop_plainStream hplR]
    rfl
  have h_mapL : List.mapM numConvert
      [Tok.str ['('], .str A, .str ['-'], .str B, .str [')']] =
      .ok [.str ['('], .num .toIntC (.ofStr A), .str ['-'],
        .num .toIntC (.ofStr B), .str [')']] := by
    simp only [List.mapM_cons, List.mapM_nil, numConvert_digit hA hdA,
      numConvert_digit hB hdB]
    rfl
  have h_mapR : List.mapM numConvert [Tok.str A, .str ['-'], .str B] =
      .ok [.num .toIntC (.ofStr A), .str ['-'], .num .toIntC (.ofStr B)] := by
    simp only [List.mapM_cons, List.mapM_nil, numConvert_digit hA hdA,
      numConvert_digit hB hdB]
    rfl
  have h_lexL : lex ('(' :: (A ++ ' ' :: '-' :: ' ' :: (B ++ [')']))) =
      .ok [.str ['('], .num .toIntC (.ofStr A), .str ['-'],
        .num .toIntC (.ofStr B), .str [')']] := by
    unfold lex
    rw [h_rawL, h_combL]
    exact h_mapL
  have h_lexR : lex (A ++ ' ' :: '-' :: ' ' :: B) =
      .ok [.num .toIntC (.ofStr A), .str ['-'], .num .toIntC (.ofStr B)] := by
    unfold lex
    rw [h_rawR, h_combR]
    exact h_mapR
  have h_tokEq : tokenize ('(' :: (A ++ ' ' :: '-' :: ' ' :: (B ++ [')']))) =
      tokenize (A ++ ' ' :: '-' :: ' ' :: B) := by
    unfold tokenize
    rw [h_lexL, h_lexR]
    rfl
  unfold parseChars
  rw [h_tokEq]

theorem c10_case_star (A B : List Char)
    (hA : A ≠ []) (hdA : A.all isDigitChar = true)
    (hB : B ≠ []) (hdB : B.all isDigitChar = true) :
    parseChars ('(' :: (A ++ ' ' :: '*' :: ' ' :: (B ++ [')']))) =
      parseChars (A ++ ' ' :: '*' :: ' ' :: B) := by
  have h_rawL : findall ('(' :: (A ++ ' ' :: '*' :: ' ' :: (B ++ [')']))) =
      [['('], A, ['*'], B, [')']] := by
    rw [findall_cons (matchAt_lpar _)]
    rw [findall_digits hA hdA (fun c hc => by cases hc; decide)
      (by intro h; simp at h)]
    rw [findall_space, findall_cons (matchAt_star_space _), findall_space]
    rw [findall_digits hB hdB (fun c hc => by cases hc; decide)
      (by intro h; simp at h)]
    rw [findall_cons (matchAt_rpar _)]
    rfl
  have h_rawR : findall (A ++ ' ' :: '*' :: ' ' :: B) = [A, ['*'], B] := by
    rw [findall_digits hA hdA (fun c hc => by cases hc; decide)
      (by intro h; simp at h)]
    rw [findall_space, findall_cons (matchAt_star_space _), findall_space]
    rw [findall_digits_nil hB hdB]
  have hm : should_combine_tokens ['*'] (some A) = false := rfl
  have hsA : should_combine_tokens A (some ['(']) = false := by
    simp [should_combine_tokens, digit_ne_minus hdA]
  have hsA2 : should_combine_tokens A none = false := by
    simp [should_combine_tokens, digit_ne_minus hdA]
  have hsB : should_combine_tokens B (some ['*']) = false := by
    simp [should_combine_tokens, digit_ne_minus hdB]
  have hplL : plainStream none [['('], A, ['*'], B, [')']] := by
    exact ⟨rfl, by decide, hsA, digit_not_const hdA,
      hm, by decide, hsB, digit_not_const hdB, rfl, by decide, trivial⟩
  have hplR : plainStream none [A, ['*'], B] := by
    exact ⟨hsA2, digit_not_const hdA, hm, by decide,
      hsB, digit_not_const hdB, trivial⟩
  have h_combL : combineLoop none [['('], A, ['*'], B, [')']] =
      .ok [.str ['('], .str A, .str ['*'], .str B, .str [')']] := by
    rw [combineLoop_plainStream hplL]
    rfl
  have h_combR : combineLoop none [A, ['*'], B] =
      .ok [.str A, .str ['*'], .str B] := by
    rw [combineLoop_plainStream hplR]
    rfl
  have h_mapL : List.mapM numConvert
      [Tok.str ['('], .str A, .str ['*'], .str B, .str [')']] =
      .ok [.str ['('], .num .toIntC (.ofStr A), .str ['*'],
        .num .toIntC (.ofStr B), .str [')']] := by
    simp only [List.mapM_cons, List.mapM_nil, numConvert_digit hA hdA,
      numConvert_digit hB hdB]
    rfl
  have h_mapR : List.mapM numConvert [Tok.str A, .str ['*'], .str B] =
      .ok [.num .toIntC (.ofStr A), .str ['*'], .num .toIntC (.ofStr B)] := by
    simp only [List.mapM_cons, List.mapM_nil, numConvert_digit hA hdA,
      numConvert_digit hB hdB]
    rfl
  have h_lexL : lex ('(' :: (A ++ ' ' :: '*' :: ' ' :: (B ++ [')']))) =
      .ok [.str ['('], .num .toIntC (.ofStr A), .str ['*'],
        .num .toIntC (.ofStr B), .str [')']] := by
    unfold lex
    rw [h_rawL, h_combL]
    exact h_mapL
  have h_lexR : lex (A ++ ' ' :: '*' :: ' ' :: B) =
      .ok [.num .toIntC (.ofStr A), .str ['*'], .num .toIntC (.ofStr B)] := by
    unfold lex
    rw [h_rawR, h_combR]
    exact h_mapR
  have h_tokEq : tokenize ('(' :: (A ++ ' ' :: '*' :: ' ' :: (B ++ [')']))) =
      tokenize (A ++ ' ' :: '*' :: ' ' :: B) := by
    unfold tokenize
    rw [h_lexL, h_lexR]
    rfl
  unfold parseChars
  rw [h_tokEq]

theorem c10_case_slash (A B : List Char)
    (hA : A ≠ []) (hdA : A.all isDigitChar = true)
    (hB : B ≠ []) (hdB : B.all isDigitChar = true) :
    parseChars ('(' :: (A ++ ' ' :: '/' :: ' ' :: (B ++ [')']))) =
      parseChars (A ++ ' ' :: '/' :: ' ' :: B) := by
  have h_rawL : findall ('(' :: (A ++ ' ' :: '/' :: ' ' :: (B ++ [')']))) =
      [['('], A, ['/'], B, [')']] := by
    rw [findall_cons (matchAt_lpar _)]
    rw [findall_digits hA hdA (fun c hc => by cases hc; decide)
      (by intro h; simp at h)]
    rw [findall_space, findall_cons (matchAt_slash_space _), findall_space]
    rw [findall_digits hB hdB (fun c hc => by cases hc; decide)
      (by intro h; simp at h)]
    rw [findall_cons (matchAt_rpar _)]
    rfl
  have h_rawR : findall (A ++ ' ' :: '/' :: ' ' :: B) = [A, ['/'], B] := by
    rw [findall_digits hA hdA (fun c hc => by cases hc; decide)
      (by intro h; simp at h)]
    rw [findall_space, findall_cons (matchAt_slash_space _), findall_space]
    rw [findall_digits_nil hB hdB]
  have hm : should_combine_tokens ['/'] (some A) = false := rfl
  have hsA : should_combine_tokens A (some ['(']) = false := by
    simp [should_combine_tokens, digit_ne_minus hdA]
  have hsA2 : should_combine_tokens A none = false := by
    simp [should_combine_tokens, digit_ne_minus hdA]
  have hsB : should_combine_tokens B (some ['/']) = false := by
    simp [should_combine_tokens, digit_ne_minus hdB]
  have hplL : plainStream none [['('], A, ['/'], B, [')']] := by
    exact ⟨rfl, by decide, hsA, digit_not_const hdA,
      hm, by decide, hsB, digit_not_const hdB, rfl, by decide, trivial⟩
  have hplR : plainStream none [A, ['/'], B] := by
    exact ⟨hsA2, digit_not_const hdA, hm, by decide,
      hsB, digit_not_const hdB, trivial⟩
  have h_combL : combineLoop none [['('], A, ['/'], B, [')']] =
      .ok [.str ['('], .str A, .str ['/'], .str B, .str [')']] := by
    rw [combineLoop_plainStream hplL]
    rfl
  have h_combR : combineLoop none [A, ['/'], B] =
      .ok [.str A, .str ['/'], .str B] := by
    rw [combineLoop_plainStream hplR]
    rfl
  have h_mapL : List.mapM numConvert
      [Tok.str ['('], .str A, .str ['/'], .str B, .str [')']] =
      .ok [.str ['('], .num .toIntC (.ofStr A), .str ['/'],
        .num .toIntC (.ofStr B), .str [')']] := by
    simp only [List.mapM_cons, List.mapM_nil, numConvert_digit hA hdA,
      numConvert_digit hB hdB]
    rfl
  have h_mapR : List.mapM numConvert [Tok.str A, .str ['/'], .str B] =
      .ok [.num .toIntC (.ofStr A), .str ['/'], .num .toIntC (.ofStr B)] := by
    simp only [List.mapM_cons, List.mapM_nil, numConvert_digit hA hdA,
      numConvert_digit hB hdB]
    rfl
  have h_lexL : lex ('(' :: (A ++ ' ' :: '/' :: ' ' :: (B ++ [')']))) =
      .ok [.str ['('], .num .toIntC (.ofStr A), .str ['/'],
        .num .toIntC (.ofStr B), .str [')']] := by
    unfold lex
    rw [h_rawL, h_combL]
    exact h_mapL
  have h_lexR : lex (A ++ ' ' :: '/' :: ' ' :: B) =
      .ok [.num .toIntC (.ofStr A), .str ['/'], .num .toIntC (.ofStr B)] := by
    unfold lex
    rw [h_rawR, h_combR]
    exact h_mapR
  have h_tokEq : tokenize ('(' :: (A ++ ' ' :: '/' :: ' ' :: (B ++ [')']))) =
      tokenize (A ++ ' ' :: '/' :: ' ' :: B) := by
    unfold tokenize
    rw [h_lexL, h_lexR]
    rfl
  unfold parseChars
  rw [h_tokEq]

set_option maxHeartbeats 2000000 in
theorem c10_case_starstar (A B : List Char)
    (hA : A ≠ []) (hdA : A.all isDigitChar = true)
    (hB : B ≠ []) (hdB : B.all isDigitChar = true) :
    parseChars ('(' :: (A ++ ' ' :: '*' :: '*' :: ' ' :: (B ++ [')']))) =
      parseChars (A ++ ' ' :: '*' :: '*' :: ' ' :: B) := by
  have h_rawL : findall ('(' :: (A ++ ' ' :: '*' :: '*' :: ' ' :: (B ++ [')']))) =
      [['('], A, ['*', '*'], B, [')']] := by
    rw [findall_cons (matchAt_lpar _)]
    rw [findall_digits hA hdA (fun c hc => by cases hc; decide)
      (by intro h; simp at h)]
    rw [findall_space, findall_cons (matchAt_starstar _), findall_space]
    rw [findall_digits hB hdB (fun c hc => by cases hc; decide)
      (by intro h; simp at h)]
    rw [findall_cons (matchAt_rpar _)]
    rfl
  have h_rawR : findall (A ++ ' ' :: '*' :: '*' :: ' ' :: B) = [A, ['*', '*'], B] := by
    rw [findall_digits hA hdA (fun c hc => by cases hc; decide)
      (by intro h; simp at h)]
    rw [findall_space, findall_cons (matchAt_starstar _), findall_space]
    rw [findall_digits_nil hB hdB]
  have hm : should_combine_tokens ['*', '*'] (some A) = false := rfl
  have hsA : should_combine_tokens A (some ['(']) = false := by
    simp [should_combine_tokens, digit_ne_minus hdA]
  have hsA2 : should_combine_tokens A none = false := by
    simp [should_combine_tokens, digit_ne_minus hdA]
  have hsB : should_combine_tokens B (some ['*', '*']) = false := by
    simp [should_combine_tokens, digit_ne_minus hdB]
  have hplL : plainStream none [['('], A, ['*', '*'], B, [')']] := by
    exact ⟨rfl, by decide, hsA, digit_not_const hdA,
      hm, by decide, hsB, digit_not_const hdB, rfl, by decide, trivial⟩
  have hplR : plainStream none [A, ['*', '*'], B] := by
    exact ⟨hsA2, digit_not_const hdA, hm, by decide,
      hsB, digit_not_const hdB, trivial⟩
  have h_combL : combineLoop none [['('], A, ['*', '*'], B, [')']] =
      .ok [.str ['('], .str A, .str ['*', '*'], .str B, .str [')']] := by
    rw [combineLoop_plainStream hplL]
    rfl
  have h_combR : combineLoop none [A, ['*', '*'], B] =
      .ok [.str A, .str ['*', '*'], .str B] := by
    rw [combineLoop_plainStream hplR]
    rfl
  have h_mapL : List.mapM numConvert
      [Tok.str ['('], .str A, .str ['*', '*'], .str B, .str [')']] =
      .ok [.str ['('], .num .toIntC (.ofStr A), .str ['*', '*'],
        .num .toIntC (.ofStr B), .str [')']] := by
    simp only [List.mapM_cons, List.mapM_nil, numConvert_digit hA hdA,
      numConvert_digit hB hdB]
    rfl
  have h_mapR : List.mapM numConvert [Tok.str A, .str ['*', '*'], .str B] =
      .ok [.num .toIntC (.ofStr A), .str ['*', '*'], .num .toIntC (.ofStr B)] := by
    simp only [List.mapM_cons, List.mapM_nil, numConvert_digit hA hdA,
      numConvert_digit hB hdB]
    rfl
  have h_lexL : lex ('(' :: (A ++ ' ' :: '*' :: '*' :: ' ' :: (B ++ [')']))) =
      .ok [.str ['('], .num .toIntC (.ofStr A), .str ['*', '*'],
        .num .toIntC (.ofStr B), .str [')']] := by
    unfold lex
    rw [h_rawL, h_combL]
    exact h_mapL
  have h_lexR : lex (A ++ ' ' :: '*' :: '*' :: ' ' :: B) =
      .ok [.num .toIntC (.ofStr A), .str ['*', '*'], .num .toIntC (.ofStr B)] := by
    unfold lex
    rw [h_rawR, h_combR]
    exact h_mapR
  have h_tokEq : tokenize ('(' :: (A ++ ' ' :: '*' :: '*' :: ' ' :: (B ++ [')']))) =
      tokenize (A ++ ' ' :: '*' :: '*' :: ' ' :: B) := by
    unfold tokenize
    rw [h_lexL, h_lexR]
    rfl
  unfold parseChars
  rw [h_tokEq]

theorem c10_case_slashslash (A B : List Char)
    (hA : A ≠ []) (hdA : A.all isDigitChar = true)
    (hB : B ≠ []) (hdB : B.all isDigitChar = true) :
    parseChars ('(' :: (A ++ ' ' :: '/' :: '/' :: ' ' :: (B ++ [')']))) =
      parseChars (A ++ ' ' :: '/' :: '/' :: ' ' :: B) := by
  have h_rawL : findall ('(' :: (A ++ ' ' :: '/' :: '/' :: ' ' :: (B ++ [')']))) =
      [['('], A, ['/', '/'], B, [')']] := by
    rw [findall_cons (matchAt_lpar _)]
    rw [findall_digits hA hdA (fun c hc => by cases hc; decide)
      (by intro h; simp at h)]
    rw [findall_space, findall_cons (matchAt_slashslash _), findall_space]
    rw [findall_digits hB hdB (fun c hc => by cases hc; decide)
      (by intro h; simp at h)]
    rw [findall_cons (matchAt_rpar _)]
    rfl
  have h_rawR : findall (A ++ ' ' :: '/' :: '/' :: ' ' :: B) = [A, ['/', '/'], B] := by
    rw [findall_digits hA hdA (fun c hc => by cases hc; decide)
      (by intro h; simp at h)]
    rw [findall_space, findall_cons (matchAt_slashslash _), findall_space]
    rw [findall_digits_nil hB hdB]
  have hm : should_combine_tokens ['/', '/'] (some A) = false := rfl
  have hsA : should_combine_tokens A (some ['(']) = false := by
    simp [should_combine_tokens, digit_ne_minus hdA]
  have hsA2 : should_combine_tokens A none = false := by
    simp [should_combine_tokens, digit_ne_minus hdA]
  have hsB : should_combine_tokens B (some ['/', '/']) = false := by
    simp [should_combine_tokens, digit_ne_minus hdB]
  have hplL : plainStream none [['('], A, ['/', '/'], B, [')']] := by
    exact ⟨rfl, by decide, hsA, digit_not_const hdA,
      hm, by decide, hsB, digit_not_const hdB, rfl, by decide, trivial⟩
  have hplR : plainStream none [A, ['/', '/'], B] := by
    exact ⟨hsA2, digit_not_const hdA, hm, by decide,
      hsB, digit_not_const hdB, trivial⟩
  have h_combL : combineLoop none [['('], A, ['/', '/'], B, [')']] =
      .ok [.str ['('], .str A, .str ['/', '/'], .str B, .str [')']] := by
    rw [combineLoop_plainStream hplL]
    rfl
  have h_combR : combineLoop none [A, ['/', '/'], B] =
      .ok [.str A, .str ['/', '/'], .str B] := by
    rw [combineLoop_plainStream hplR]
    rfl
  have h_mapL : List.mapM numConvert
      [Tok.str ['('], .str A, .str ['/', '/'], .str B, .str [')']] =
      .ok [.str ['('], .num .toIntC (.ofStr A), .str ['/', '/'],
        .num .toIntC (.ofStr B), .str [')']] := by
    simp only [List.mapM_cons, List.mapM_nil, numConvert_digit hA hdA,
      numConvert_digit hB hdB]
    rfl
  have h_mapR : List.mapM numConvert [Tok.str A, .str ['/', '/'], .str B] =
      .ok [.num .toIntC (.ofStr A), .str ['/', '/'], .num .toIntC (.ofStr B)] := by
    simp only [List.mapM_cons, List.mapM_nil, numConvert_digit hA hdA,
      numConvert_digit hB hdB]
    rfl
  have h_lexL : lex ('(' :: (A ++ ' ' :: '/' :: '/' :: ' ' :: (B ++ [')']))) =
      .ok [.str ['('], .num .toIntC (.ofStr A), .str ['/', '/'],
        .num .toIntC (.ofStr B), .str [')']] := by
    unfold lex
    rw [h_rawL, h_combL]
    exact h_mapL
  have h_lexR : lex (A ++ ' ' :: '/' :: '/' :: ' ' :: B) =
      .ok [.num .toIntC (.ofStr A), .str ['/', '/'], .num .toIntC (.ofStr B)] := by
    unfold lex
    rw [h_rawR, h_combR]
    exact h_mapR
  have h_tokEq : tokenize ('(' :: (A ++ ' ' :: '/' :: '/' :: ' ' :: (B ++ [')']))) =
      tokenize (A ++ ' ' :: '/' :: '/' :: ' ' :: B) := by
    unfold tokenize
    rw [h_lexL, h_lexR]
    rfl
  unfold parseChars
  rw [h_tokEq]

/-- C10 amended: for integer literals and every binary operator symbol the
lexer can produce, a parenthesized two-operand expression parses to the
same result as the bare one: the fold inside the parentheses builds the
very node the final fold would build. -/
theorem c10_paren_transparent_binop (A B op : List Char)
    (hA : A ≠ []) (hdA : A.all isDigitChar = true)
    (hB : B ≠ []) (hdB : B.all isDigitChar = true)
    (hop : op ∈ [['+'], ['-'], ['*'], ['/'], ['*', '*'], ['/', '/']]) :
    parseChars ('(' :: (A ++ ' ' :: (op ++ ' ' :: (B ++ [')'])))) =
      parseChars (A ++ ' ' :: (op ++ ' ' :: B)) := by
  simp only [List.mem_cons, List.not_mem_nil, or_false] at hop
  rcases hop with rfl | rfl | rfl | rfl | rfl | rfl
  · exact c10_case_plus A B hA hdA hB hdB
  · exact c10_case_minus A B hA hdA hB hdB
  · exact c10_case_star A B hA hdA hB hdB
  · exact c10_case_slash A B hA hdA hB hdB
  · exact c10_case_starstar A B hA hdA hB hdB
  · exact c10_case_slashslash A B hA hdA hB hdB

/-- C10 witness: `parse "(2 + 3)"` equals `parse "2 + 3"` (both `5`). -/
theorem c10_witness :
    parse ("(2 + 3)") = parse ("2 + 3") ∧ parse ("2 + 3") = .ok (.intV 5) := by
  constructor
  · have := c10_paren_transparent_binop ['2'] ['3'] ['+'] (by decide)
      (by decide) (by decide) (by decide) (by simp)
    exact this
  · decide

/-- C6 counterexample: the lexing stage can raise.  An input that is just
`-` (a unary-position minus with no following token) raises `IndexError`
at the merge step, and a constant name raises `AttributeError` when the
number-mapping comprehension calls `is_number` — i.e. `.isnumeric()` — on
the constant's node. -/
theorem c6_counterexample :
    lex (cl ("-")) = .error .indexErr ∧
    lex (cl ("PI")) = .error .attrErr :=
  ⟨rfl, rfl⟩

theorem should_combine_minus {t : List Char} {prev : Option (List Char)}
    (h : should_combine_tokens t prev = true) : t = ['-'] := by
  simp only [should_combine_tokens, Bool.and_eq_true, beq_iff_eq] at h
  exact h.1

theorem numConvert_str_ok (s : List Char) :
    ∃ r, numConvert (.str s) = .ok r := by
  by_cases h : is_number s = true
  · by_cases hdot : ('.' : Char) ∈ s
    · exact ⟨.num .toFloatC (.ofStr s), by simp [numConvert, h, mkMathNum, hdot]⟩
    · exact ⟨.num .toIntC (.ofStr s), by simp [numConvert, h, mkMathNum, hdot]⟩
  · exact ⟨.str s, by simp [numConvert, h]⟩

theorem combineLoop_ok_of_no_dangling_n (n : Nat) :
    ∀ (raw : List (List Char)), raw.length ≤ n →
    ∀ (prev : Option (List Char)),
    raw.getLast? ≠ some ['-'] →
    (∀ t ∈ raw, constKeys.contains t = false) →
    ∃ ss : List (List Char), combineLoop prev raw = .ok (ss.map Tok.str) := by
  induction n with
  | zero =>
    intro raw hn prev _ _
    have : raw = [] := List.length_eq_zero.mp (Nat.le_zero.mp hn)
    subst this
    exact ⟨[], rfl⟩
  | succ n ih =>
    intro raw hn prev hlast hconst
    match raw with
    | [] => exact ⟨[], rfl⟩
    | t :: rest =>
      by_cases hc : should_combine_tokens t prev = true
      · have ht := should_combine_minus hc
        subst ht
        match rest, hlast with
        | [], hlast => exact absurd rfl hlast
        | u :: rest2, hlast =>
          have hlast2 : rest2.getLast? ≠ some ['-'] := by
            cases rest2 with
            | nil => simp
            | cons v rest3 =>
              rw [List.getLast?_cons_cons, List.getLast?_cons_cons] at hlast
              exact hlast
          obtain ⟨ss, hss⟩ := ih rest2
            (by simp only [List.length_cons] at hn; omega) (some u)
            hlast2 (fun x hx => hconst x (by simp [hx]))
          refine ⟨(['-'] ++ u) :: ss, ?_⟩
          rw [combineLoop_cons_merge hc, hss]
          rfl
      · have hcf : should_combine_tokens t prev = false := by
          simpa using hc
        have hlast2 : rest.getLast? ≠ some ['-'] := by
          cases rest with
          | nil => simp
          | cons v rest3 =>
            rw [List.getLast?_cons_cons] at hlast
            exact hlast
        obtain ⟨ss, hss⟩ := ih rest
          (by simp only [List.length_cons] at hn; omega) (some t)
          hlast2 (fun x hx => hconst x (by simp [hx]))
        refine ⟨t :: ss, ?_⟩
        rw [combineLoop_cons_plain hcf (hconst t (by simp)), hss]
        rfl

theorem combineLoop_ok_of_no_dangling {raw : List (List Char)}
    (prev : Option (List Char))
    (hlast : raw.getLast? ≠ some ['-'])
    (hconst : ∀ t ∈ raw, constKeys.contains t = false) :
    ∃ ss : List (List Char), combineLoop prev raw = .ok (ss.map Tok.str) :=
  combineLoop_ok_of_no_dangling_n raw.length raw (le_refl _) prev hlast hconst

theorem mapM_numConvert_strs (ss : List (List Char)) :
    ∃ ts, List.mapM numConvert (ss.map Tok.str) = .ok ts := by
  induction ss with
  | nil => exact ⟨[], rfl⟩
  | cons s ss2 ih =>
    obtain ⟨r, hr⟩ := numConvert_str_ok s
    obtain ⟨ts, hts⟩ := ih
    refine ⟨r :: ts, ?_⟩
    rw [List.map_cons, List.mapM_cons, hr, hts]
    rfl

/-- C6 amended: the lexing stage completes without raising exactly when
no trailing unary-position `-` and no constant name gets in the way: for
every input whose raw token sequence does not end in `-` and contains no
constant name, `lex` succeeds. -/
theorem c6_lex_total_without_dangling_minus_or_constant (cs : List Char)
    (hlast : (findall cs).getLast? ≠ some ['-'])
    (hconst : ∀ t ∈ findall cs, constKeys.contains t = false) :
    (lex cs).isOk = true := by
  obtain ⟨ss, hss⟩ := combineLoop_ok_of_no_dangling none hlast hconst
  obtain ⟨ts, hts⟩ := mapM_numConvert_strs ss
  unfold lex
  rw [hss]
  show (List.mapM numConvert (ss.map Tok.str)).isOk = true
  rw [hts]
  rfl

theorem exbind_ok {α β : Type} (a : α) (f : α → Except PyErr β) :
    (Except.ok a >>= f) = f a := rfl

/-- C4 amended: a word that names no table function, applied to a
parenthesized number literal, is treated as plain grouping: the reduced
argument replaces the span, the name survives as a raw string token, and
`parse` fails with `AttributeError` when that token is evaluated — never
with the unknown-function `ValueError`. -/
theorem c4_unknown_name_attr_error (w A : List Char)
    (hwne : w ≠ []) (hw : w.all isWordChar = true)
    (hhd : ∀ c, w.head? = some c → isDigitChar c = false)
    (hfn : funcKeys.contains w = false)
    (hcn : constKeys.contains w = false)
    (hA : A ≠ []) (hdA : A.all isDigitChar = true) :
    parseChars (w ++ '(' :: (A ++ [')'])) = .error .attrErr := by
  have hlp : (w == cl ("(")) = false := all_ne_of_exists_not hw (by decide)
  have hrp : (w == cl (")")) = false := all_ne_of_exists_not hw (by decide)
  have h_raw : findall (w ++ '(' :: (A ++ [')'])) = [w, ['('], A, [')']] := by
    rw [findall_cons (matchAt_word hwne hw hhd (fun c hc => by cases hc; decide))]
    rw [findall_cons (matchAt_lpar _)]
    rw [findall_digits hA hdA (fun c hc => by cases hc; decide)
      (by intro h; simp at h)]
    rw [findall_cons (matchAt_rpar _)]
    rfl
  have hpl : plainStream none [w, ['('], A, [')']] :=
    ⟨by simp [should_combine_tokens, word_ne_minus hw], hcn,
     rfl, by decide,
     by simp [should_combine_tokens, digit_ne_minus hdA], digit_not_const hdA,
     rfl, by decide, trivial⟩
  have h_comb : combineLoop none [w, ['('], A, [')']] =
      .ok [.str w, .str ['('], .str A, .str [')']] := by
    rw [combineLoop_plainStream hpl]
    rfl
  have h_map : List.mapM numConvert [Tok.str w, .str ['('], .str A, .str [')']] =
      .ok [.str w, .str ['('], .num .toIntC (.ofStr A), .str [')']] := by
    simp only [List.mapM_cons, List.mapM_nil,
      numConvert_word hw hhd hwne, numConvert_digit hA hdA]
    rfl
  have h_lex : lex (w ++ '(' :: (A ++ [')'])) =
      .ok [.str w, .str ['('], .num .toIntC (.ofStr A), .str [')']] := by
    unfold lex
    rw [h_raw, h_comb]
    exact h_map
  have g1 : ((['('] : List Char) == cl ("(")) = true := by decide
  have g2 : ((['('] : List Char) == cl (")")) = false := by decide
  have g3 : (([')'] : List Char) == cl ("(")) = false := by decide
  have g4 : (([')'] : List Char) == cl (")")) = true := by decide
  have h_fp : find_parentheses
      [Tok.str w, .str ['('], .num .toIntC (.ofStr A), .str [')']] =
      .ok (some (1, 3)) := by
    simp [find_parentheses, countStr, idxOfStr, lastLParen, tokEqStr,
      List.filter_cons, List.findIdx?, List.enum, hlp, hrp, g1, g2, g3, g4]
  have hfnm : w ∉ funcKeys := by simpa using hfn
  have hfuncs : tokInFuncs (.str w) = false := by simp [tokInFuncs, hfnm]
  have h_step : parenStep
      [Tok.str w, .str ['('], .num .toIntC (.ofStr A), .str [')']] =
      .ok [.str w, .num .toIntC (.ofStr A)] := by
    unfold parenStep
    rw [h_fp, exbind_ok]
    simp [pyGet, exbind_ok, hfuncs, foldAll, foldOp, foldOpF, idxOfStr,
      tokEqStr, List.findIdx?]
    rfl
  have hhas : hasStr [Tok.str w, .str ['('], .num .toIntC (.ofStr A), .str [')']]
      (cl ("(")) = true := by
    simp [hasStr, tokEqStr, hlp, g1]
  have hhas2 : hasStr [Tok.str w, .num .toIntC (.ofStr A)] (cl ("(")) = false := by
    simp [hasStr, tokEqStr, hlp]
  have h_paren : parenLoop
      [Tok.str w, .str ['('], .num .toIntC (.ofStr A), .str [')']] =
      .ok [.str w, .num .toIntC (.ofStr A)] := by
    unfold parenLoop
    show parenLoopF 4 _ = _
    simp only [parenLoopF, hhas, if_true]
    rw [h_step, exbind_ok]
    exact parenLoopF_no_lparen hhas2 3
  have h_ops : ∀ p ∈ operators,
      idxOfStr [Tok.str w, .num .toIntC (.ofStr A)] p.1 = none := by
    intro p hp
    simp only [operators, List.mem_cons, List.not_mem_nil, or_false] at hp
    have hne : (w == p.1) = false := by
      rcases hp with rfl | rfl | rfl | rfl | rfl | rfl | rfl | rfl | rfl |
        rfl | rfl | rfl | rfl <;>
        exact all_ne_of_exists_not hw (by decide)
    simp [idxOfStr, List.findIdx?, tokEqStr, hne]
  have h_final : finalLoopF 100 [Tok.str w, .num .toIntC (.ofStr A)] =
      .ok [.str w, .num .toIntC (.ofStr A)] :=
    finalLoopF_fixed (foldAll_none h_ops) 100
  have h_tok : tokenize (w ++ '(' :: (A ++ [')'])) = .ok (.str w) := by
    unfold tokenize
    rw [h_lex, exbind_ok, h_paren, exbind_ok, h_final, exbind_ok]
  unfold parseChars
  rw [h_tok, exbind_ok]
  rfl

/-- C4 witness: `parse "foo(1)"` raises `AttributeError`. -/
theorem c4_witness : parse ("foo(1)") = .error .attrErr := by
  have := c4_unknown_name_attr_error ['f', 'o', 'o'] ['1'] (by decide)
    (by decide) (fun c hc => by cases hc; decide) (by decide) (by decide)
    (by decide) (by decide)
  exact this

/-- C6 witness: lexing `"2 + )("` (garbage suffix included) succeeds. -/
theorem c6_witness : (lex (cl ("2 + )("))).isOk = true := by
  exact c6_lex_total_without_dangling_minus_or_constant _ (by decide) (by decide)


/-! Fuel soundness: the fuel parameters threaded through `foldOpF` and
`parenLoopF` only make the recursion structural; any fuel at least the
token-list length yields the same result, so `foldOp` and `parenLoop`
faithfully model the unbounded source loops (which terminate because each
successful pass strictly shrinks the list). -/


theorem exbind_err {α β : Type} (e : PyErr) (f : α → Except PyErr β) :
    (Except.error e >>= f : Except PyErr β) = .error e := rfl

theorem pySet_ok_length {ts : List Tok} {i : Int} {t : Tok} {ts2 : List Tok}
    (h : pySet ts i t = .ok ts2) : ts2.length = ts.length := by
  dsimp only [pySet] at h
  split at h <;> split at h <;> cases h <;> exact List.length_set ts _ t

theorem pyDel_ok_length {ts : List Tok} {i : Int} {ts2 : List Tok}
    (h : pyDel ts i = .ok ts2) : ts2.length + 1 = ts.length := by
  dsimp only [pyDel] at h
  split at h <;> split at h <;> rename_i hb <;> cases h <;>
    exact List.length_eraseIdx_add_one (by omega)

theorem foldOpF_none_step {op : List Char} {fn : OpFun} {fuel : Nat}
    {ts : List Tok} (h : idxOfStr ts op = none) :
    foldOpF op fn (fuel + 1) ts = .ok ts := by
  simp [foldOpF, h]

theorem foldOpF_some_step {op : List Char} {fn : OpFun} {fuel : Nat}
    {ts : List Tok} {found : Nat} (h : idxOfStr ts op = some found) :
    foldOpF op fn (fuel + 1) ts = (do
      let v1 ← pyGet ts ((found : Int) - 1)
      let v2 ← pyGet ts ((found : Int) + 1)
      let ts1 ← pySet ts ((found : Int)) (mkMathOp op fn v1 v2)
      let ts2 ← pyDel ts1 ((found : Int) + 1)
      let ts3 ← pyDel ts2 ((found : Int) - 1)
      foldOpF op fn fuel ts3) := by
  simp [foldOpF, h]

theorem foldOpF_fuel_congr (op : List Char) (fn : OpFun) (n : Nat) :
    ∀ (ts : List Tok) (f1 f2 : Nat), ts.length ≤ n → ts.length ≤ f1 →
      ts.length ≤ f2 → foldOpF op fn f1 ts = foldOpF op fn f2 ts := by
  induction n with
  | zero =>
    intro ts f1 f2 hn _ _
    have : ts = [] := List.length_eq_zero.mp (Nat.le_zero.mp hn)
    subst this
    cases f1 <;> cases f2 <;> rfl
  | succ n ih =>
    intro ts f1 f2 hn h1 h2
    match ts with
    | [] => cases f1 <;> cases f2 <;> rfl
    | x :: rest =>
      obtain ⟨g1, rfl⟩ : ∃ k, f1 = k + 1 :=
        ⟨f1 - 1, by simp only [List.length_cons] at h1; omega⟩
      obtain ⟨g2, rfl⟩ : ∃ k, f2 = k + 1 :=
        ⟨f2 - 1, by simp only [List.length_cons] at h2; omega⟩
      match hidx : idxOfStr (x :: rest) op with
      | none => rw [foldOpF_none_step hidx, foldOpF_none_step hidx]
      | some found =>
        rw [foldOpF_some_step hidx, foldOpF_some_step hidx]
        cases hv1 : pyGet (x :: rest) ((found : Int) - 1) with
        | error e => rw [exbind_err, exbind_err]
        | ok v1 =>
          rw [exbind_ok, exbind_ok]
          cases hv2 : pyGet (x :: rest) ((found : Int) + 1) with
          | error e => rw [exbind_err, exbind_err]
          | ok v2 =>
            rw [exbind_ok, exbind_ok]
            cases hs : pySet (x :: rest) ((found : Int))
                (mkMathOp op fn v1 v2) with
            | error e => rw [exbind_err, exbind_err]
            | ok ts1 =>
              rw [exbind_ok, exbind_ok]
              cases hd1 : pyDel ts1 ((found : Int) + 1) with
              | error e => rw [exbind_err, exbind_err]
              | ok ts2 =>
                rw [exbind_ok, exbind_ok]
                cases hd2 : pyDel ts2 ((found : Int) - 1) with
                | error e => rw [exbind_err, exbind_err]
                | ok ts3 =>
                  rw [exbind_ok, exbind_ok]
                  have l1 := pySet_ok_length hs
                  have l2 := pyDel_ok_length hd1
                  have l3 := pyDel_ok_length hd2
                  simp only [List.length_cons] at hn h1 h2 l1
                  exact ih ts3 g1 g2 (by omega) (by omega) (by omega)

/-- foldOp computes the same result at any fuel at least the list length:
the fuel in `foldOpF` is an artifact of the embedding, not a semantic
bound. -/
theorem foldOp_fuel_irrelevant (op : List Char) (fn : OpFun) (ts : List Tok)
    (f : Nat) (hf : ts.length ≤ f) :
    foldOpF op fn f ts = foldOp op fn ts :=
  foldOpF_fuel_congr op fn ts.length ts f ts.length (le_refl _) hf (le_refl _)

theorem findIdx_some_lt {α : Type} {p : α → Bool} :
    ∀ {l : List α} {i : Nat}, List.findIdx? p l = some i → i < l.length := by
  intro l
  induction l with
  | nil => intro i h; simp [List.findIdx?] at h
  | cons a l2 ih =>
    intro i h
    rw [List.findIdx?_cons] at h
    by_cases hp : p a = true
    · simp [hp] at h
      simp [List.length_cons]
      omega
    · simp [hp] at h
      obtain ⟨b, hb, hbi⟩ := h
      have := ih hb
      simp [List.length_cons]
      omega

theorem foldOpF_ok_length (op : List Char) (fn : OpFun) :
    ∀ (fuel : Nat) (ts ts2 : List Tok), foldOpF op fn fuel ts = .ok ts2 →
      ts2.length ≤ ts.length := by
  intro fuel
  induction fuel with
  | zero =>
    intro ts ts2 h
    cases h
    exact le_refl _
  | succ f ih =>
    intro ts ts2 h
    match hidx : idxOfStr ts op with
    | none =>
      rw [foldOpF_none_step hidx] at h
      cases h
      exact le_refl _
    | some found =>
      rw [foldOpF_some_step hidx] at h
      cases hv1 : pyGet ts ((found : Int) - 1) with
      | error e => rw [hv1, exbind_err] at h; cases h
      | ok v1 =>
        rw [hv1, exbind_ok] at h
        cases hv2 : pyGet ts ((found : Int) + 1) with
        | error e => rw [hv2, exbind_err] at h; cases h
        | ok v2 =>
          rw [hv2, exbind_ok] at h
          cases hs : pySet ts ((found : Int)) (mkMathOp op fn v1 v2) with
          | error e => rw [hs, exbind_err] at h; cases h
          | ok ts1 =>
            rw [hs, exbind_ok] at h
            cases hd1 : pyDel ts1 ((found : Int) + 1) with
            | error e => rw [hd1, exbind_err] at h; cases h
            | ok tsB =>
              rw [hd1, exbind_ok] at h
              cases hd2 : pyDel tsB ((found : Int) - 1) with
              | error e => rw [hd2, exbind_err] at h; cases h
              | ok ts3 =>
                rw [hd2, exbind_ok] at h
                have l1 := pySet_ok_length hs
                have l2 := pyDel_ok_length hd1
                have l3 := pyDel_ok_length hd2
                have := ih ts3 ts2 h
                omega

theorem foldlM_foldOp_length :
    ∀ (L : List (List Char × OpFun)) (ts ts2 : List Tok),
      List.foldlM (fun acc p => foldOp p.1 p.2 acc) ts L = .ok ts2 →
      ts2.length ≤ ts.length := by
  intro L
  induction L with
  | nil =>
    intro ts ts2 h
    cases h
    exact le_refl _
  | cons q L2 ih =>
    intro ts ts2 h
    rw [List.foldlM_cons] at h
    cases hq : foldOp q.1 q.2 ts with
    | error e => rw [hq, exbind_err] at h; cases h
    | ok mid =>
      rw [hq, exbind_ok] at h
      have h1 := foldOpF_ok_length q.1 q.2 ts.length ts mid hq
      have h2 := ih mid ts2 h
      omega

theorem foldAll_ok_length {ts ts2 : List Tok} (h : foldAll ts = .ok ts2) :
    ts2.length ≤ ts.length :=
  foldlM_foldOp_length operators ts ts2 h

theorem lastLParen_some_lt {xs : List Tok} {i : Nat}
    (h : lastLParen xs = some i) : i < xs.length := by
  unfold lastLParen at h
  have hmem := List.max?_mem (fun x y => max_choice x y) h
  simp only [List.mem_map, List.mem_filter] at hmem
  obtain ⟨pr, ⟨hpr, _⟩, rfl⟩ := hmem
  have hg := List.mem_enum_iff_getElem?.mp hpr
  obtain ⟨hlt, -⟩ := List.getElem?_eq_some.mp hg
  exact hlt

theorem find_parentheses_some_bounds {ts : List Tok} {p1 p2 : Nat}
    (h : find_parentheses ts = .ok (some (p1, p2))) :
    p1 < p2 ∧ p2 < ts.length := by
  dsimp only [find_parentheses] at h
  split at h
  · cases h
  · split at h
    · simp at h
    · cases hidx : idxOfStr ts (cl (")")) with
      | none => rw [hidx] at h; cases h
      | some q2 =>
        rw [hidx] at h
        dsimp only at h
        cases hlast : lastLParen (ts.take q2) with
        | none => rw [hlast] at h; cases h
        | some q1 =>
          rw [hlast] at h
          simp only [Except.ok.injEq, Option.some.injEq, Prod.mk.injEq] at h
          obtain ⟨h1, h2⟩ := h
          subst h1
          subst h2
          have hb1 := lastLParen_some_lt hlast
          have hb2 := findIdx_some_lt hidx
          rw [List.length_take] at hb1
      
          constructor
          · omega
          · exact hb2

theorem hasStr_countStr_pos {ts : List Tok} {s : List Char}
    (h : hasStr ts s = true) : countStr ts s ≠ 0 := by
  unfold hasStr at h
  unfold countStr
  simp only [List.any_eq_true] at h
  obtain ⟨t, hmem, ht⟩ := h
  have : t ∈ ts.filter (fun t => tokEqStr t s) := by
    rw [List.mem_filter]
    exact ⟨hmem, ht⟩
  have := List.length_pos.mpr (List.ne_nil_of_mem this)
  omega

theorem parenStep_shrinks {ts ts2 : List Tok}
    (hguard : hasStr ts (cl ("(")) = true)
    (h : parenStep ts = .ok ts2) : ts2.length + 2 ≤ ts.length := by
  unfold parenStep at h
  cases hfp : find_parentheses ts with
  | error e => rw [hfp, exbind_err] at h; cases h
  | ok r =>
    rw [hfp, exbind_ok] at h
    match r with
    | none =>
      exfalso
      dsimp only [find_parentheses] at hfp
      split at hfp
      · cases hfp
      · split at hfp
        · rename_i hcz
          have := hasStr_countStr_pos hguard
          exact this hcz
        · cases hidx : idxOfStr ts (cl (")")) with
          | none => rw [hidx] at hfp; cases hfp
          | some q2 =>
            rw [hidx] at hfp
            dsimp only at hfp
            cases hlast : lastLParen (ts.take q2) with
            | none => rw [hlast] at hfp; cases hfp
            | some q1 => rw [hlast] at hfp; simp at hfp
    | some pq =>
      match pq with
      | (p1, p2) =>
      have ⟨hb1, hb2⟩ := find_parentheses_some_bounds hfp
      dsimp only at h
      cases hbef : pyGet ts ((p1 : Int) - 1) with
      | error e => rw [hbef, exbind_err] at h; cases h
      | ok before =>
        rw [hbef, exbind_ok] at h
        cases hfold : foldAll ((ts.take p2).drop (p1 + 1)) with
        | error e => rw [hfold, exbind_err] at h; cases h
        | ok expr =>
          rw [hfold, exbind_ok] at h
          have hexpr := foldAll_ok_length hfold
          rw [List.length_drop, List.length_take] at hexpr
          by_cases hfa : tokInFuncs before = true
          · rw [if_pos hfa] at h
            cases hmk : mkMathFunc (strOf before) expr with
            | error e => rw [hmk, exbind_err] at h; cases h
            | ok node =>
              rw [hmk, exbind_ok] at h
              cases hset : pySet ts ((p1 : Int) - 1) node with
              | error e => rw [hset, exbind_err] at h; cases h
              | ok tsb =>
                rw [hset, exbind_ok] at h
                cases h
                have hlen := pySet_ok_length hset
                rw [List.length_append, List.length_take, List.length_drop]
                omega
          · rw [if_neg hfa] at h
            cases h
            rw [List.length_append, List.length_append, List.length_take,
              List.length_drop]
            omega

theorem parenLoopF_fuel_congr (n : Nat) :
    ∀ (ts : List Tok) (f1 f2 : Nat), ts.length ≤ n → ts.length ≤ f1 →
      ts.length ≤ f2 → parenLoopF f1 ts = parenLoopF f2 ts := by
  induction n with
  | zero =>
    intro ts f1 f2 hn _ _
    have : ts = [] := List.length_eq_zero.mp (Nat.le_zero.mp hn)
    subst this
    cases f1 <;> cases f2 <;> rfl
  | succ n ih =>
    intro ts f1 f2 hn h1 h2
    by_cases hg : hasStr ts (cl ("(")) = true
    · have htsne : ts ≠ [] := by
        intro he
        subst he
        simp [hasStr] at hg
      obtain ⟨g1, rfl⟩ : ∃ k, f1 = k + 1 :=
        ⟨f1 - 1, by cases ts with | nil => exact absurd rfl htsne | cons a l =>
          simp only [List.length_cons] at h1; omega⟩
      obtain ⟨g2, rfl⟩ : ∃ k, f2 = k + 1 :=
        ⟨f2 - 1, by cases ts with | nil => exact absurd rfl htsne | cons a l =>
          simp only [List.length_cons] at h2; omega⟩
      simp only [parenLoopF, hg, if_true]
      cases hstep : parenStep ts with
      | error e => rw [exbind_err, exbind_err]
      | ok ts2 =>
        rw [exbind_ok, exbind_ok]
        have hsh := parenStep_shrinks hg hstep
        cases ts with
        | nil => exact absurd rfl htsne
        | cons a l =>
          simp only [List.length_cons] at hn h1 h2 hsh
          exact ih ts2 g1 g2 (by omega) (by omega) (by omega)
    · have hgf : hasStr ts (cl ("(")) = false := by simpa using hg
      rw [parenLoopF_no_lparen hgf, parenLoopF_no_lparen hgf]

/-- parenLoop computes the same result at any fuel at least the list
length: the fuel in `parenLoopF` is an artifact of the embedding, not a
semantic bound. -/
theorem parenLoop_fuel_irrelevant (ts : List Tok) (f : Nat)
    (hf : ts.length ≤ f) : parenLoopF f ts = parenLoop ts :=
  parenLoopF_fuel_congr ts.length ts f ts.length (le_refl _) hf (le_refl _)

end Parsematic
